import Mathlib

/-!
Verification of the conversational query-orchestration core of the
hypersignal proof-of-concept backend
(`backend/app/services/agent_service.py`, `backend/app/routers/chat.py`).

Texts are modelled as lists of Unicode code points (`List Char`), which
matches Python's `str` length and indexing semantics.  `str.lower` /
`str.upper` are modelled on the ASCII range (the only range the source's
patterns rely on); Korean text is case-invariant in both models and in
Python.  Machine reals do not occur; the numeric scalars flowing through
the chart selector are modelled as exact rationals.
-/

abbrev Text := List Char

/-- Python `a in b` (substring test) via an explicit starts-with check. -/
def isPrefOf : Text → Text → Bool
  | [], _ => true
  | _ :: _, [] => false
  | a :: as, b :: bs => a == b && isPrefOf as bs

/-- Python `needle in hay`: `needle` occurs contiguously inside `hay`. -/
def isSub (needle : Text) : Text → Bool
  | [] => needle.isEmpty
  | hay@(_ :: t) => isPrefOf needle hay || isSub needle t

/-- Python `str.endswith` (used to model `$`-anchored regex searches). -/
def isSufOf (p s : Text) : Bool := isPrefOf p.reverse s.reverse

/-- ASCII model of Python `str.lower` (per code point). -/
def lowerChar (c : Char) : Char :=
  if c.toNat = 65 then 'a'
  else if c.toNat = 66 then 'b'
  else if c.toNat = 67 then 'c'
  else if c.toNat = 68 then 'd'
  else if c.toNat = 69 then 'e'
  else if c.toNat = 70 then 'f'
  else if c.toNat = 71 then 'g'
  else if c.toNat = 72 then 'h'
  else if c.toNat = 73 then 'i'
  else if c.toNat = 74 then 'j'
  else if c.toNat = 75 then 'k'
  else if c.toNat = 76 then 'l'
  else if c.toNat = 77 then 'm'
  else if c.toNat = 78 then 'n'
  else if c.toNat = 79 then 'o'
  else if c.toNat = 80 then 'p'
  else if c.toNat = 81 then 'q'
  else if c.toNat = 82 then 'r'
  else if c.toNat = 83 then 's'
  else if c.toNat = 84 then 't'
  else if c.toNat = 85 then 'u'
  else if c.toNat = 86 then 'v'
  else if c.toNat = 87 then 'w'
  else if c.toNat = 88 then 'x'
  else if c.toNat = 89 then 'y'
  else if c.toNat = 90 then 'z'
  else c

/-- ASCII model of Python `str.upper` (per code point). -/
def upperChar (c : Char) : Char :=
  if c.toNat = 97 then 'A'
  else if c.toNat = 98 then 'B'
  else if c.toNat = 99 then 'C'
  else if c.toNat = 100 then 'D'
  else if c.toNat = 101 then 'E'
  else if c.toNat = 102 then 'F'
  else if c.toNat = 103 then 'G'
  else if c.toNat = 104 then 'H'
  else if c.toNat = 105 then 'I'
  else if c.toNat = 106 then 'J'
  else if c.toNat = 107 then 'K'
  else if c.toNat = 108 then 'L'
  else if c.toNat = 109 then 'M'
  else if c.toNat = 110 then 'N'
  else if c.toNat = 111 then 'O'
  else if c.toNat = 112 then 'P'
  else if c.toNat = 113 then 'Q'
  else if c.toNat = 114 then 'R'
  else if c.toNat = 115 then 'S'
  else if c.toNat = 116 then 'T'
  else if c.toNat = 117 then 'U'
  else if c.toNat = 118 then 'V'
  else if c.toNat = 119 then 'W'
  else if c.toNat = 120 then 'X'
  else if c.toNat = 121 then 'Y'
  else if c.toNat = 122 then 'Z'
  else c

def pyLower (s : Text) : Text := s.map lowerChar

def pyUpper (s : Text) : Text := s.map upperChar

/-- ASCII whitespace, modelling Python's `\s` class and `str.strip`. -/
def pyIsSpace (c : Char) : Bool :=
  c == ' ' || c == '\t' || c == '\n' || c == '\r' || c == '\x0b' || c == '\x0c'

/-- Python `str.strip()`. -/
def pyStrip (s : Text) : Text :=
  ((s.dropWhile pyIsSpace).reverse.dropWhile pyIsSpace).reverse

def dropSpaces (s : Text) : Text := s.dropWhile pyIsSpace

/-- Apply a predicate at every suffix, modelling `re.search` scanning. -/
def anySuffix (p : Text → Bool) : Text → Bool
  | [] => p []
  | s@(_ :: t) => p s || anySuffix p t

/-- Matcher for the source's `X Y? \s* Z` Korean regexes (`이건?\s*뭐` etc.):
at the current position, `c1`, then optionally `copt`, then whitespace,
then `c2`. -/
def koPatAt (c1 copt c2 : Char) (s : Text) : Bool :=
  match s with
  | [] => false
  | x :: rest =>
    x == c1 &&
      ((dropSpaces rest).head? == some c2 ||
        (match rest with
         | y :: r2 => y == copt && (dropSpaces r2).head? == some c2
         | [] => false))

/-- Matcher for `A\s*B` regex searches (`어떤\s*데이터` etc.). -/
def seqWsHit (a b : Text) (s : Text) : Bool :=
  anySuffix (fun t => isPrefOf a t && isPrefOf b (dropSpaces (t.drop a.length))) s

/-- Maximal runs of characters satisfying `ok`, modelling
`re.findall(r'[가-힣a-z0-9]+', s)`.  `cur` is the (reversed) run being
accumulated. -/
def tokenRunsAux (ok : Char → Bool) : Text → Text → List Text
  | cur, [] => if cur.isEmpty then [] else [cur.reverse]
  | cur, c :: t =>
    if ok c then tokenRunsAux ok (c :: cur) t
    else if cur.isEmpty then tokenRunsAux ok [] t
    else cur.reverse :: tokenRunsAux ok [] t

def tokenRuns (ok : Char → Bool) (s : Text) : List Text := tokenRunsAux ok [] s

/-- Python `s.rsplit('.', 1)[0]`. -/
def beforeLastDot (s : Text) : Text :=
  let rs := s.reverse
  if rs.any (fun c => c == '.') then ((rs.dropWhile (fun c => !(c == '.'))).tail).reverse
  else s

/-- Suffix strictly after the first occurrence of character `d`. -/
def afterFirstChar (d : Char) : Text → Option Text
  | [] => none
  | x :: xs => if x == d then some xs else afterFirstChar d xs

theorem afterFirstChar_length {d : Char} :
    ∀ {s r : Text}, afterFirstChar d s = some r → r.length < s.length := by
  intro s
  induction s with
  | nil => intro r h; simp [afterFirstChar] at h
  | cons x xs ih =>
    intro r h
    by_cases hx : (x == d) = true
    · simp [afterFirstChar, hx] at h
      simp [← h, List.length_cons, Nat.lt_succ_self]
    · simp [afterFirstChar, hx] at h
      exact Nat.lt_trans (ih h) (Nat.lt_succ_self _)

/-- Model of `re.sub(r'\([^)]*\)', '', s)`: remove each parenthesised group
(a `(`, any non-`)` characters, then `)`); an unmatched `(` is left as is. -/
def removeParens : Text → Text
  | [] => []
  | c :: t =>
    if h : (c == '(') = true then
      match hm : afterFirstChar ')' t with
      | some rest => removeParens rest
      | none => c :: t
    else c :: removeParens t
termination_by s => s.length
decreasing_by
  · exact Nat.lt_trans (afterFirstChar_length hm) (Nat.lt_succ_self _)
  · exact Nat.lt_succ_self _

/-! ## Intent classifier (`DataAgent.analyze_intent`, agent_service.py lines 78-166) -/

/-- Column descriptor; only the name takes part in the classifier. -/
structure ColumnInfo where
  name : Text
deriving DecidableEq, Repr

/-- The slice of `FileMetadata` (models/schemas.py) consumed by the
classifier and the suggestion cache. -/
structure FileMeta where
  filename : Text
  columns : List ColumnInfo
deriving DecidableEq, Repr

inductive Intent where
  | irrelevant
  | meaningless
  | question_mark
  | unrelated_to_data
  | explanation
  | metadata
  | query
deriving DecidableEq, Repr

/-- A `re.match` pattern of the source's greeting list: either an anchored
literal p (`^p`) or an exact one (`^p$`). -/
inductive SimplePat where
  | pre (p : Text)
  | exact (p : Text)
deriving DecidableEq

def matchSimple (s : Text) : SimplePat → Bool
  | SimplePat.pre p => isPrefOf p s
  | SimplePat.exact p => isPrefOf p s && s.length == p.length

/-- The `irrelevant_patterns` list (lines 92-97), in source order. -/
def irrelevantPatterns : List SimplePat :=
  [ SimplePat.pre ("안녕".data), SimplePat.exact ("hi".data),
    SimplePat.exact ("hello".data), SimplePat.pre ("헬로".data),
    SimplePat.exact ("하이".data),
    SimplePat.pre ("ㅎㅇ".data), SimplePat.pre ("ㅎㅇㅎㅇ".data),
    SimplePat.pre ("하위".data), SimplePat.pre ("하이하이".data),
    SimplePat.pre ("어때".data), SimplePat.pre ("어떄".data),
    SimplePat.pre ("잘지내".data), SimplePat.pre ("뭐해".data),
    SimplePat.pre ("밥먹".data),
    SimplePat.pre ("좋은".data), SimplePat.pre ("감사".data),
    SimplePat.pre ("고마워".data), SimplePat.pre ("ㄱㅅ".data),
    SimplePat.pre ("ㄳ".data) ]

/-- Compatibility jamo block `[ㄱ-ㅎㅏ-ㅣ]` (U+3131..U+3163). -/
def isJamo (c : Char) : Bool := 0x3131 ≤ c.toNat && c.toNat ≤ 0x3163

/-- Hangul syllables `[가-힣]` (U+AC00..U+D7A3). -/
def isHangulSyllable (c : Char) : Bool := 0xAC00 ≤ c.toNat && c.toNat ≤ 0xD7A3

/-- `re.match(r'^[아어음ㅏㅓㅡ\s]+$', msg)`. -/
def vowelOnlySet (c : Char) : Bool :=
  (['아', '어', '음', 'ㅏ', 'ㅓ', 'ㅡ'].contains c) || pyIsSpace c

/-- `re.match(r'^[ㄱ-ㅎㅏ-ㅣ\s]+$', msg)`. -/
def jamoOnlySet (c : Char) : Bool := isJamo c || pyIsSpace c

/-- `re.match(r'^[ㅁㄴㅇㄹㅎㅋㅌㅊㅍㅅㅂㅈㄷㄱ]+$', msg)`. -/
def consonantOnlySet (c : Char) : Bool :=
  ['ㅁ', 'ㄴ', 'ㅇ', 'ㄹ', 'ㅎ', 'ㅋ', 'ㅌ', 'ㅊ', 'ㅍ', 'ㅅ', 'ㅂ', 'ㅈ', 'ㄷ', 'ㄱ'].contains c

/-- The `meaningless_patterns` full-string character classes (lines 103-107). -/
def meaninglessSets : List (Char → Bool) := [vowelOnlySet, jamoOnlySet, consonantOnlySet]

def fullMatchSet (set : Char → Bool) (s : Text) : Bool := !s.isEmpty && s.all set

/-- `re.search(r'[가-힣]{2,}', msg)`: two consecutive Hangul syllables. -/
def hasHangulWord : Text → Bool
  | [] => false
  | [_] => false
  | a :: b :: t => (isHangulSyllable a && isHangulSyllable b) || hasHangulWord (b :: t)

/-- Keyword character class `[가-힣a-z0-9]` of the metadata keyword extraction. -/
def keywordChar (c : Char) : Bool :=
  isHangulSyllable c || ('a' ≤ c && c ≤ 'z') || ('0' ≤ c && c ≤ '9')

/-- The analytic keyword list (lines 142-144), membership tested on the raw
message. -/
def analysisKeywords : List Text :=
  [ "평균".data, "최대".data, "최소".data, "합계".data, "개수".data, "분포".data,
    "추이".data, "비교".data, "분석".data, "조회".data, "검색".data,
    "몇".data, "얼마".data, "언제".data, "어디".data, "어떤".data, "총".data,
    "전체".data, "상위".data, "하위".data, "많은".data, "적은".data,
    "높은".data, "낮은".data, "크".data, "작".data, "증가".data, "감소".data,
    "변화".data, "차이".data ]

/-- The explanation-pattern check (lines 152-159), one disjunct per regex,
in source order. -/
def explanationHit (msg : Text) : Bool :=
  anySuffix (koPatAt '이' '건' '뭐') msg ||
  anySuffix (koPatAt '이' '게' '뭔') msg ||
  anySuffix (koPatAt '저' '건' '뭔') msg ||
  (isSufOf ("뭐야".data) msg || isSufOf ("뭐야?".data) msg) ||
  (isSufOf ("뭔지".data) msg || isSufOf ("뭔지?".data) msg) ||
  seqWsHit ("어떤".data) ("데이터".data) msg ||
  seqWsHit ("어떤".data) ("정보".data) msg ||
  isSub ("설명".data) msg ||
  isSub ("알려줘".data) msg ||
  isSub ("뭘까".data) msg

/-- The metadata keyword list (line 162), membership tested on the raw
message. -/
def metaKeywords : List Text :=
  [ "컬럼".data, "열".data, "column".data, "필드".data,
    "데이터 종류".data, "어떤 정보".data ]

/-- Keywords (length ≥ 2) extracted from the dataset's file name. -/
def filenameKeywords (md : FileMeta) : List Text :=
  tokenRuns keywordChar (pyLower (beforeLastDot md.filename))

/-- Keywords extracted from every column name with parenthesised qualifiers
stripped. -/
def columnKeywords (md : FileMeta) : List Text :=
  md.columns.flatMap (fun col => tokenRuns keywordChar (removeParens (pyLower col.name)))

/-- `DataAgent.analyze_intent` (lines 78-166), rule for rule in source
order. -/
def analyze_intent (user_message : Text) (metadata : Option FileMeta) : Intent :=
  let msg := pyStrip user_message
  let msgLower := pyLower msg
  if msg.length ≤ 2 then Intent.meaningless
  else if msg = "?".data ∨ msg = "?".data ∨ msg = "。".data then Intent.question_mark
  else if irrelevantPatterns.any (matchSimple msgLower) then Intent.irrelevant
  else if meaninglessSets.any (fun set => fullMatchSet set msg) then Intent.meaningless
  else if msg.any isJamo then Intent.meaningless
  else if 3 ≤ msg.length ∧ ¬hasHangulWord msg then Intent.meaningless
  else
    let unrelated :=
      match metadata with
      | none => false
      | some md =>
        let hasFilenameMatch :=
          (filenameKeywords md).any (fun k => 2 ≤ k.length && isSub k msgLower)
        let hasColumnMatch :=
          (columnKeywords md).any (fun k => 2 ≤ k.length && isSub k msgLower)
        let hasAnalysisKeyword := analysisKeywords.any (fun k => isSub k msg)
        !hasFilenameMatch && !hasColumnMatch && !hasAnalysisKeyword
    if unrelated then Intent.unrelated_to_data
    else if explanationHit msg then Intent.explanation
    else if metaKeywords.any (fun k => isSub k msg) then Intent.metadata
    else Intent.query

/-! ## Chart selection (`DataAgent._prepare_chart_data` lines 586-628 and
`DataAgent._determine_chart_type` lines 630-684) -/

/-- Python scalar cell values.  `num` covers `int`/`float` (modelled as an
exact rational); any other value is non-numeric for the chart selector. -/
inductive Value where
  | num (q : ℚ)
  | str (s : Text)
  | null
deriving DecidableEq, Repr

/-- Python `str(v)` for a cell value (only used to build chart labels; no
claim depends on the exact rendering of numbers). -/
def pyStr : Value → Text
  | Value.num q => (toString q).data
  | Value.str s => s
  | Value.null => "None".data

/-- A result row: an insertion-ordered mapping from column name to value,
as produced by the query engine. -/
abbrev Row := List (Text × Value)

/-- Python `row[key]` as a partial lookup (first binding wins). -/
def dictGet (r : Row) (k : Text) : Option Value :=
  (r.find? (fun kv => kv.1 == k)).map (fun kv => kv.2)

/-- Errors the chart-selection code can raise. -/
inductive PyErr where
  | keyError
  | zeroDivisionError
  | valueError
  | indexError
deriving DecidableEq, Repr

/-- The inner loop of `_prepare_chart_data` (lines 601-609): walk the rows
collecting numeric values for column `k`, stopping (Python `break`) at the
first non-numeric value; a missing key raises `KeyError`. -/
def collectVals (k : Text) : List Row → Except PyErr (List ℚ)
  | [] => Except.ok []
  | r :: rs =>
    match dictGet r k with
    | none => Except.error PyErr.keyError
    | some (Value.num q) => (collectVals k rs).map (fun vs => q :: vs)
    | some _ => Except.ok []

structure Dataset where
  label : Text
  data : List ℚ
  type : Option Text := none
deriving DecidableEq, Repr

structure ChartData where
  labels : List Text
  datasets : List Dataset
  chart_type : Text
deriving DecidableEq, Repr

/-- Python `sum`. -/
def listSum (l : List ℚ) : ℚ := l.foldl (fun a b => a + b) 0

/-- Mean of a dataset, `sum(ds['data']) / len(ds['data'])` (exact). -/
def dsAvg (ds : Dataset) : ℚ := listSum ds.data / (ds.data.length : ℚ)

/-- Python `max` on a list: raises `ValueError` when empty. -/
def pyMaxQ : List ℚ → Except PyErr ℚ
  | [] => Except.error PyErr.valueError
  | x :: xs => Except.ok (xs.foldl max x)

/-- Python `min` on a list: raises `ValueError` when empty. -/
def pyMinQ : List ℚ → Except PyErr ℚ
  | [] => Except.error PyErr.valueError
  | x :: xs => Except.ok (xs.foldl min x)

def pieKwHit (u : Text) : Bool :=
  isSub ("파이".data) u || isSub ("pie".data) u || isSub ("원그래프".data) u

def lineKwHit (u : Text) : Bool :=
  isSub ("라인".data) u || isSub ("line".data) u || isSub ("선".data) u ||
  isSub ("꺾은선".data) u

def barKwHit (u : Text) : Bool :=
  isSub ("막대".data) u || isSub ("bar".data) u || isSub ("바".data) u

def areaKwHit (u : Text) : Bool :=
  isSub ("영역".data) u || isSub ("area".data) u

def timePatterns : List Text :=
  [ "날짜".data, "일자".data, "월".data, "년".data, "시간".data,
    "date".data, "time".data, "month".data, "year".data, "day".data ]

def isTimeSeriesCol (firstColumnName : Text) : Bool :=
  timePatterns.any (fun p => isSub p (pyLower firstColumnName))

def percentagePatterns : List Text :=
  [ "비율".data, "점유".data, "분포".data, "구성".data, "분류".data,
    "ratio".data, "share".data, "distribution".data, "category".data ]

def aggregationPatterns : List Text :=
  [ "건수".data, "개수".data, "수량".data, "count".data, "sum".data, "합계".data ]

/-- The in-place mutation of the combo branch (lines 679-680): tag the
first dataset (`i = 0`) `bar` and every later one `line`. -/
def comboTag : List Dataset → List Dataset
  | [] => []
  | d :: ds =>
    { d with type := some ("bar".data) } ::
      ds.map (fun x => { x with type := some ("line".data) })

/-- Mean of each dataset, raising `ZeroDivisionError` on an empty dataset
(`sum(..) / len(..)` with `len = 0`). -/
def dsAvgE (ds : Dataset) : Except PyErr ℚ :=
  if ds.data.length = 0 then Except.error PyErr.zeroDivisionError
  else Except.ok (listSum ds.data / (ds.data.length : ℚ))

/-- The explicit-keyword priority chain of `_determine_chart_type`
(lines 636-646): in Python's `if/elif` chain a pie keyword with more than
one dataset falls through to the inference rules. -/
def chartKwChoice (numDatasets : Nat) (u : Text) : Option Text :=
  if pieKwHit u then (if numDatasets = 1 then some ("pie".data) else none)
  else if lineKwHit u then some ("line".data)
  else if barKwHit u then some ("bar".data)
  else if areaKwHit u then some ("area".data)
  else none

/-- The pie inference condition of lines 653-661. -/
def pieInference (numLabels numDatasets : Nat) (firstColumnName : Text) : Prop :=
  numLabels ≤ 10 ∧ numDatasets = 1 ∧ ¬isTimeSeriesCol firstColumnName ∧
    (percentagePatterns.any (fun p => isSub p (pyLower firstColumnName)) ∨
     aggregationPatterns.any (fun p => isSub p (pyLower firstColumnName)))

instance (nl nd : Nat) (fc : Text) : Decidable (pieInference nl nd fc) := by
  unfold pieInference; infer_instance

/-- `DataAgent._determine_chart_type` (lines 630-684).  The returned pair
carries the chart type together with the (possibly retagged) datasets,
since the combo branch mutates them in place.  Division by a zero minimum
mean raises `ZeroDivisionError`, exactly as `max_avg / min_avg` does in
Python. -/
def determine_chart_type (labels : List Text) (datasets : List Dataset)
    (firstColumnName : Text) (userMessage : Text) :
    Except PyErr (Text × List Dataset) :=
  match chartKwChoice datasets.length (pyLower userMessage) with
  | some t => Except.ok (t, datasets)
  | none =>
    if pieInference labels.length datasets.length firstColumnName then
      Except.ok ("pie".data, datasets)
    else if isTimeSeriesCol firstColumnName then
      Except.ok ((if datasets.length = 1 then "area".data else "line".data), datasets)
    else if 2 ≤ datasets.length then do
      let avgs ← datasets.mapM dsAvgE
      match pyMaxQ avgs, pyMinQ avgs with
      | Except.ok maxAvg, Except.ok minAvg =>
        if minAvg = 0 then Except.error PyErr.zeroDivisionError
        else if maxAvg / minAvg > 10 then Except.ok ("combo".data, comboTag datasets)
        else Except.ok ("bar".data, datasets)
      | _, _ => Except.error PyErr.valueError
    else Except.ok ("bar".data, datasets)

/-- The dataset-collection fold of `_prepare_chart_data` (lines 600-614). -/
def buildDatasets (queryResult : List Row) : List Text → Except PyErr (List Dataset)
  | [] => Except.ok []
  | k :: ks => do
    let vs ← collectVals k queryResult
    let rest ← buildDatasets queryResult ks
    if vs.length = queryResult.length then
      pure (⟨k, vs, none⟩ :: rest)
    else
      pure rest

/-- Body of `_prepare_chart_data` once the first row's key list is known;
the first two arms realise the `len(keys) < 2` guard (lines 592-594). -/
def prepareWithKeys (queryResult : List Row) (userMessage : Text) :
    List Text → Except PyErr (Option ChartData)
  | [] => Except.ok none
  | [_] => Except.ok none
  | k0 :: krest => do
    let labels ← queryResult.mapM (fun r =>
      match dictGet r k0 with
      | some v => Except.ok (pyStr v)
      | none => Except.error PyErr.keyError)
    let datasets ← buildDatasets queryResult krest
    if datasets.isEmpty then
      pure none
    else do
      let (chartType, datasets') ← determine_chart_type labels datasets k0 userMessage
      pure (some ⟨labels, datasets', chartType⟩)

/-- `DataAgent._prepare_chart_data` (lines 586-628). -/
def prepare_chart_data (queryResult : List Row) (userMessage : Text) :
    Except PyErr (Option ChartData) :=
  match queryResult with
  | [] => Except.ok none
  | row0 :: _ =>
    prepareWithKeys queryResult userMessage (row0.map (fun kv => kv.1))

/-- A cell value is "positive-numeric-or-non-numeric": used as the
well-formedness hypothesis under which chart preparation cannot raise. -/
def valPosB : Value → Bool
  | Value.num q => decide (0 < q)
  | _ => true

/-- Concrete counterexample rows for the chart selector: two numeric
columns, one of them all zero. -/
def zeroMeanRows : List Row :=
  [ [("c".data, Value.str ("x".data)), ("a".data, Value.num 0), ("b".data, Value.num 100)],
    [("c".data, Value.str ("y".data)), ("a".data, Value.num 0), ("b".data, Value.num 200)] ]

/-- Concrete rows whose two numeric columns have means 1000 and 5. -/
def comboRows : List Row :=
  [ [("cat".data, Value.str ("a".data)), ("x".data, Value.num 1000), ("y".data, Value.num 5)],
    [("cat".data, Value.str ("b".data)), ("x".data, Value.num 1000), ("y".data, Value.num 5)] ]

/-- Concrete rows for the invariants witness: a temporal label column and
one numeric column. -/
def monthRows : List Row :=
  [ [("month".data, Value.str ("2024-01".data)), ("temp".data, Value.num 5)],
    [("month".data, Value.str ("2024-02".data)), ("temp".data, Value.num 25)] ]

/-! ## SQL repair (`DataAgent._fix_group_by_issue`, lines 549-582) -/

def stdCol : Text := "표준코드명".data

def stdColComma : Text := "표준코드명,".data

def stdColNl : Text := "표준코드명\n".data

def anyValueRep : Text := "ANY_VALUE(표준코드명) AS 표준코드명,".data

def anyValueRepNl : Text := "ANY_VALUE(표준코드명) AS 표준코드명\n".data

def avStr : Text := "ANY_VALUE".data

def maxParenStr : Text := "MAX(".data

def gbStr : Text := "GROUP BY".data

def selStr : Text := "SELECT".data

/-- Python `s.replace(pat, rep)`: non-overlapping left-to-right
replacement. -/
def replaceAll (pat rep : Text) : Text → Text
  | [] => []
  | c :: cs =>
    if h : pat ≠ [] ∧ isPrefOf pat (c :: cs) = true then
      rep ++ replaceAll pat rep ((c :: cs).drop pat.length)
    else c :: replaceAll pat rep cs
termination_by s => s.length
decreasing_by
  · have hp : 0 < pat.length := List.length_pos.mpr h.1
    simp only [List.length_drop, List.length_cons]
    omega
  · simp

/-- Python `s.split('\n')`. -/
def splitNl : Text → List Text
  | [] => [[]]
  | c :: cs =>
    if c = '\n' then [] :: splitNl cs
    else
      match splitNl cs with
      | [] => [[c]]
      | l :: ls => (c :: l) :: ls

/-- Python `'\n'.join(lines)`. -/
def joinNl : List Text → Text
  | [] => []
  | [l] => l
  | l :: ls => l ++ '\n' :: joinNl ls

def hasGB (l : Text) : Bool := isSub gbStr (pyUpper l)

def hasSEL (l : Text) : Bool := isSub selStr (pyUpper l)

def hasAV (l : Text) : Bool := isSub avStr l

/-- Line 564: the line mentions the descriptive column and is not already
aggregated. -/
def lineTarget (l : Text) : Bool :=
  isSub stdCol l && !(hasAV l) && !(isSub maxParenStr l)

/-- Lines 574-575: both replacements (the second pattern contains `'\n'`
and can never occur inside a split line, mirroring the dead second
`replace`). -/
def applyFix (l : Text) : Text :=
  replaceAll stdColNl anyValueRepNl (replaceAll stdColComma anyValueRep l)

/-- One iteration of the loop body (lines 558-577) for the line at the
head of `window`; `window` is the current line followed by the next nine
(`range(i, min(i + 10, len(lines)))`). -/
def fixStep (inFinal : Bool) (window : List Text) (line : Text) : Text :=
  if inFinal && lineTarget line then
    match window.find? hasGB with
    | some gb => if !gb.isEmpty && !(isSub stdCol gb) then applyFix line else line
    | none => line
  else line

/-- The whole loop of `_fix_group_by_issue`; `n` is `len(lines)`, `i` the
`enumerate` index, the `Bool` the `in_final_select` flag. -/
def fixLines (n : Nat) : Nat → Bool → List Text → List Text
  | _, _, [] => []
  | i, inF, line :: rest =>
    let inF' := inF || (hasSEL line && decide (i > n / 2))
    fixStep inF' ((line :: rest).take 10) line :: fixLines n (i + 1) inF' rest

/-- `DataAgent._fix_group_by_issue` (lines 549-582), the pure body of the
`try` block. -/
def fix_group_by_issue (q : Text) : Text :=
  joinNl (fixLines (splitNl q).length 0 false (splitNl q))

/-- The inner `for j in range(i, min(i + 10, len(lines)))` lookup written
with explicit indexing, where `lines[j]` out of range would raise
`IndexError`. -/
def findGBE (allLines : List Text) : List Nat → Except PyErr (Option Text)
  | [] => Except.ok none
  | j :: js =>
    match allLines.get? j with
    | none => Except.error PyErr.indexError
    | some l => if hasGB l then Except.ok (some l) else findGBE allLines js

/-- Index-faithful loop body, surfacing every possible raise of the `try`
block as an `Except` error. -/
def fixStepE (allLines : List Text) (i : Nat) (inFinal : Bool) (line : Text) :
    Except PyErr Text :=
  if inFinal && lineTarget line then
    match findGBE allLines (List.range' i (min (i + 10) allLines.length - i)) with
    | Except.error e => Except.error e
    | Except.ok (some gb) =>
      Except.ok (if !gb.isEmpty && !(isSub stdCol gb) then applyFix line else line)
    | Except.ok none => Except.ok line
  else Except.ok line

def fixLinesE (allLines : List Text) : Nat → Bool → List Text → Except PyErr (List Text)
  | _, _, [] => Except.ok []
  | i, inF, line :: rest =>
    let inF' := inF || (hasSEL line && decide (i > allLines.length / 2))
    do
      let l' ← fixStepE allLines i inF' line
      let rest' ← fixLinesE allLines (i + 1) inF' rest
      pure (l' :: rest')

/-- `_fix_group_by_issue` with its internal partial operations surfaced. -/
def fix_group_by_issueE (q : Text) : Except PyErr Text :=
  (fixLinesE (splitNl q) 0 false (splitNl q)).map joinNl

/-- The `try`/bare-`except` wrapper of `_fix_group_by_issue`: any internal
failure returns the original query unmodified (line 580-582). -/
def repair_sql (q : Text) : Text :=
  match fix_group_by_issueE q with
  | Except.ok r => r
  | Except.error _ => q

/-! ## Query extraction and the streaming query branch
(`DataAgent._generate_sql` lines 364-411, `DataAgent._process_result`
lines 423-453, `send_message_stream` chat.py lines 214-253) -/

/-- Suffix strictly after the first occurrence of the substring `pat`. -/
def afterFirstSub (pat : Text) : Text → Option Text
  | [] => if pat.isEmpty then some [] else none
  | c :: cs =>
    if isPrefOf pat (c :: cs) then some ((c :: cs).drop pat.length)
    else afterFirstSub pat cs

/-- Text strictly before the first occurrence of the substring `pat`. -/
def beforeFirstSub (pat : Text) : Text → Option Text
  | [] => if pat.isEmpty then some [] else none
  | c :: cs =>
    if isPrefOf pat (c :: cs) then some []
    else (beforeFirstSub pat cs).map (fun t => c :: t)

def sqlFence : Text := "```sql\n".data

def closeFence : Text := "\n```".data

/-- `re.search(r'```sql\n(.*?)\n```', content, re.DOTALL)` followed by
`.group(1).strip()`: the lazy group runs from the first opening fence to
the earliest closing fence after it (if the first opening fence has no
closing fence after it, no later one has either, so the regex fails). -/
def extract_sql (content : Text) : Option Text :=
  match afterFirstSub sqlFence content with
  | none => none
  | some rest =>
    match beforeFirstSub closeFence rest with
    | none => none
    | some body => some (pyStrip body)

/-- SQL extraction plus the `GROUP BY` repair guard shared by
`generate_sql` (lines 261-271) and `_generate_sql` (lines 401-409). -/
def generate_sql_from (content : Text) : Option Text :=
  match extract_sql content with
  | none => none
  | some sql => some (if isSub gbStr (pyUpper sql) then repair_sql sql else sql)

/-- The collaborators the orchestrator can invoke: the language model, the
query engine, and the document store. -/
inductive Collab where
  | lm
  | engine
  | db
deriving DecidableEq, Repr

def natText (n : Nat) : Text := (toString n).data

/-- Placeholder rendering of Python `str(e)`; no claim depends on the
exact text. -/
def pyErrText : PyErr → Text
  | PyErr.keyError => "KeyError".data
  | PyErr.zeroDivisionError => "division by zero".data
  | PyErr.valueError => "ValueError".data
  | PyErr.indexError => "IndexError".data

/-- Python `s.split(pat)` for a nonempty separator. -/
def splitOnStr (pat : Text) : Text → List Text
  | [] => [[]]
  | c :: cs =>
    if h : pat ≠ [] ∧ isPrefOf pat (c :: cs) = true then
      [] :: splitOnStr pat ((c :: cs).drop pat.length)
    else
      match splitOnStr pat cs with
      | [] => [[c]]
      | l :: ls => (c :: l) :: ls
termination_by s => s.length
decreasing_by
  · have hp : 0 < pat.length := List.length_pos.mpr h.1
    simp only [List.length_drop, List.length_cons]
    omega
  · simp

/-- The Markdown header rows of the preview table (lines 444-445). -/
def tableHeader (row : Row) : Text :=
  ("| ".data) ++ List.intercalate (" | ".data) (row.map (fun kv => kv.1)) ++ (" |\n".data) ++
  ("| ".data) ++ List.intercalate (" | ".data) (row.map (fun _ => "---".data)) ++ (" |\n".data)

/-- One Markdown value row of the preview table (line 446). -/
def tableLine (row : Row) : Text :=
  ("| ".data) ++ List.intercalate (" | ".data) (row.map (fun kv => pyStr kv.2)) ++ (" |\n".data)

/-- The `result_summary` suffix of `_process_result` (lines 437-451). -/
def resultSummary (rows : List Row) : Text :=
  ("\n\n**조회 결과:** ".data) ++ natText rows.length ++ ("건".data) ++
    (match rows with
     | [] => []
     | r0 :: _ =>
       ("\n\n".data) ++ tableHeader r0 ++
         (rows.take 5).foldl (fun acc r => acc ++ tableLine r) [] ++
         (if rows.length > 5 then
            ("\n*...외 ".data) ++ natText (rows.length - 5) ++ ("건*".data)
          else []))

/-- `DataAgent._process_result` (lines 423-453): chart preparation (which
may raise, line 428), then the response text assembled from the text after
the last fence plus the preview table. -/
def process_result (queryResult : List Row) (aiResponse : Text) (userMessage : Text) :
    Except PyErr (Text × Option ChartData) := do
  let chartData ←
    (if queryResult ≠ [] ∧ queryResult.length ≤ 100 then
      prepare_chart_data queryResult userMessage
    else Except.ok none)
  let rt0 := pyStrip ((splitOnStr ("```".data) aiResponse).getLastD [])
  let rt1 :=
    if rt0.isEmpty ∨ rt0.length < 10 then
      ("데이터를 분석한 결과입니다.\n\n조회된 데이터: ".data) ++
        natText queryResult.length ++ ("건".data)
    else rt0
  let rt2 := if queryResult ≠ [] then rt1 ++ resultSummary queryResult else rt1
  pure (rt2, chartData)

/-- Outcome of the streaming query branch: the assistant message fields
and the expensive collaborators invoked, in order. -/
structure StreamOut where
  response : Text
  sql_query : Option Text
  chart_data : Option ChartData
  calls : List Collab
deriving DecidableEq, Repr

/-- The `query`-intent branch of `send_message_stream` (chat.py lines
214-253).  `lmContent = none` models the completion call raising (caught
by the `except` on line 246); `engineResult = none` models
`_execute_sql` returning `None` after an engine error. -/
def stream_query_branch (userMsg : Text) (lmContent : Option Text)
    (engineResult : Option (List Row)) : StreamOut :=
  match lmContent with
  | none =>
    ⟨("죄송합니다. 데이터 처리 중 오류가 발생했습니다: ".data), none, none, [Collab.lm]⟩
  | some content =>
    let sqlOpt := generate_sql_from content
    if (sqlOpt.getD []).isEmpty then
      ⟨content, sqlOpt, none, [Collab.lm]⟩
    else
      match engineResult with
      | none =>
        ⟨("데이터 조회 중 오류가 발생했습니다.".data), sqlOpt, none,
          [Collab.lm, Collab.engine]⟩
      | some rows =>
        match process_result rows content userMsg with
        | Except.ok (resp, chart) => ⟨resp, sqlOpt, chart, [Collab.lm, Collab.engine]⟩
        | Except.error e =>
          ⟨("죄송합니다. 데이터 처리 중 오류가 발생했습니다: ".data) ++ pyErrText e,
            none, none, [Collab.lm, Collab.engine]⟩

/-! ## Suggestion cache and the non-streaming orchestrator
(`DataAgent.get_cached_suggestions` lines 752-775,
`DataAgent.generate_suggested_questions` lines 777-918,
`DataAgent.process_query` lines 686-750) -/

/-- The default question list of `get_cached_suggestions` (lines 768-773);
with no columns, `columns[0]` raises `IndexError` (caught by the bare
`except`, which returns `[]`). -/
def genericFallback (md : FileMeta) : Option (List Text) :=
  match md.columns with
  | [] => none
  | c :: _ =>
    some
      [ c.name ++ ("별 데이터를 분석해주세요".data),
        ("데이터의 주요 통계를 보여주세요".data),
        ("가장 많은 값과 적은 값을 찾아주세요".data),
        ("시간대별 추세를 분석해주세요".data) ]

/-- `DataAgent.get_cached_suggestions` (lines 752-775).  `fetched` is the
result of `find_one` (`error` = the persistence call raised), `sampler`
models `random.sample`.  The returned trace records the collaborators
touched: only the document store, never the language model. -/
def get_cached_suggestions (md : FileMeta) (fetched : Except Unit (Option (List Text)))
    (sampler : List Text → Nat → List Text) : List Text × List Collab :=
  match fetched with
  | Except.error _ => ([], [Collab.db])
  | Except.ok (some questions) =>
    (if 4 ≤ questions.length then sampler questions 4 else questions, [Collab.db])
  | Except.ok none =>
    match genericFallback md with
    | some qs => (qs, [Collab.db])
    | none => ([], [Collab.db])

/-- Collaborator invocations of `generate_suggested_questions` (lines
777-918): without `force_new`, a pool fetch; when the pool is missing or
empty, a language-model call followed by a re-fetch and an
upsert/insert.  `lmOk = false` models the completion call raising, after
which the bare `except` returns the fixed fallback with no further
calls.  (A raise in the trailing store operations would only truncate the
`db` tail; the language-model and query-engine content is unaffected.) -/
def generate_suggested_questions_calls (forceNew : Bool)
    (fetched : Except Unit (Option (List Text))) (lmOk : Bool) : List Collab :=
  if forceNew = false then
    match fetched with
    | Except.error _ => [Collab.db]
    | Except.ok (some qs) =>
      if qs.isEmpty = false then [Collab.db]
      else [Collab.db, Collab.lm] ++ (if lmOk then [Collab.db, Collab.db] else [])
    | Except.ok none =>
      [Collab.db, Collab.lm] ++ (if lmOk then [Collab.db, Collab.db] else [])
  else [Collab.lm] ++ (if lmOk then [Collab.db, Collab.db] else [])

/-- `DataAgent.handle_explanation` (lines 189-234) always attempts exactly
one query-engine call (`DuckDBService.execute_query`, line 196); an engine
failure is caught and answered with the fallback text, so the trace is the
same either way. -/
def handle_explanation_calls : List Collab := [Collab.engine]

/-- The chart-request patterns of `process_query` (line 695). -/
def chartRequestPatterns : List SimplePat :=
  [ SimplePat.exact ("응".data), SimplePat.exact ("네".data),
    SimplePat.exact ("예".data), SimplePat.exact ("yes".data),
    SimplePat.pre ("차트".data), SimplePat.pre ("그래프".data),
    SimplePat.pre ("시각화".data) ]

def chart_request (msg : Text) : Bool :=
  chartRequestPatterns.any (matchSimple (pyLower (pyStrip msg)))

/-- Environment of one `process_query` run: the suggestion-store fetch
result, whether the suggestion language-model call succeeds, the content
returned by the SQL-generation language-model call (`none` = the call
raised), and whether query execution succeeds. -/
structure AgentEnv where
  suggFetch : Except Unit (Option (List Text))
  suggLmOk : Bool
  sqlLm : Option Text
  engineOk : Bool

/-- Collaborator invocations of the query path of `process_query` (lines
733-750): SQL generation (language model), then execution (query engine),
then response generation (language model).  A raised generation call or an
extraction failure stops after the language model;
an execution failure returns the error before response generation. -/
def query_path_calls (sqlLm : Option Text) (engineOk : Bool) : List Collab :=
  match sqlLm with
  | none => [Collab.lm]
  | some content =>
    match generate_sql_from content with
    | none => [Collab.lm]
    | some sql =>
      if sql.isEmpty then [Collab.lm]
      else [Collab.lm, Collab.engine] ++ (if engineOk then [Collab.lm] else [])

/-- Collaborator invocations of `DataAgent.process_query` (lines 686-750),
branch for branch: the intent is classified without the schema (line 699),
then dispatched through the `elif` chain (lines 702-750). -/
def process_query_calls (userMessage : Text) (env : AgentEnv) : List Collab :=
  let isChart := chart_request userMessage
  match analyze_intent userMessage none with
  | Intent.question_mark =>
    generate_suggested_questions_calls false env.suggFetch env.suggLmOk
  | Intent.irrelevant =>
    if isChart = false then [] else query_path_calls env.sqlLm env.engineOk
  | Intent.meaningless =>
    if isChart = false then
      generate_suggested_questions_calls false env.suggFetch env.suggLmOk
    else query_path_calls env.sqlLm env.engineOk
  | Intent.explanation => handle_explanation_calls
  | Intent.metadata => []
  | _ => query_path_calls env.sqlLm env.engineOk

/-- Modelled from the amended claim: serving suggestions touches the
store, then — when no non-empty pool is stored — the language model with
follow-up store writes. -/
def suggCalls (env : AgentEnv) : List Collab :=
  match env.suggFetch with
  | Except.error _ => [Collab.db]
  | Except.ok (some qs) =>
    if qs.isEmpty = false then [Collab.db]
    else [Collab.db, Collab.lm] ++ (if env.suggLmOk then [Collab.db, Collab.db] else [])
  | Except.ok none =>
    [Collab.db, Collab.lm] ++ (if env.suggLmOk then [Collab.db, Collab.db] else [])

/-- Modelled from the amended claim: the dispatch table of `process_query`
per classified intent and chart-request flag.  `explanation` performs
exactly one query-engine call and `metadata` invokes no collaborator, both
regardless of the chart-request flag; `question_mark` serves suggestions
regardless of the flag; only `irrelevant` and `meaningless` honour the
chart-request override — a chart-request message falls through to the
query path, otherwise `irrelevant` invokes nothing and `meaningless`
serves suggestions; `unrelated_to_data` (and `query`) always take the
query path. -/
def local_branch_calls (intent : Intent) (isChart : Bool) (env : AgentEnv) : List Collab :=
  match intent with
  | Intent.explanation => [Collab.engine]
  | Intent.metadata => []
  | Intent.irrelevant =>
    if isChart = false then [] else query_path_calls env.sqlLm env.engineOk
  | Intent.meaningless =>
    if isChart = false then suggCalls env
    else query_path_calls env.sqlLm env.engineOk
  | Intent.question_mark => suggCalls env
  | _ => query_path_calls env.sqlLm env.engineOk

/-- A fixed environment with no stored suggestion pool. -/
def envNoStore : AgentEnv := ⟨Except.ok none, true, some [], true⟩

/-- Relation between an input line and its repaired form: either untouched,
or rewritten — in which case it contains `ANY_VALUE`, contains `GROUP BY`
neither before nor after, and keeps its `SELECT` status.  This is the
invariant that makes a second repair pass the identity. -/
def RepairRel (l lr : Text) : Prop :=
  lr = l ∨
    (hasAV lr = true ∧ hasGB l = false ∧ hasGB lr = false ∧ hasSEL lr = hasSEL l)

/-- The uppercase ASCII letters (image of `upperChar` on the lowercase
range). -/
def ucLetters : Text := "ABCDEFGHIJKLMNOPQRSTUVWXYZ".data

instance {ε α : Type} [DecidableEq ε] [DecidableEq α] : DecidableEq (Except ε α) := by
  intro a b
  cases a <;> cases b
  case error.error e f =>
    by_cases h : e = f
    · exact isTrue (by rw [h])
    · exact isFalse (by intro hc; injection hc; contradiction)
  case error.ok e v => exact isFalse (by intro hc; cases hc)
  case ok.error v e => exact isFalse (by intro hc; cases hc)
  case ok.ok v w =>
    by_cases h : v = w
    · exact isTrue (by rw [h])
    · exact isFalse (by intro hc; injection hc; contradiction)

/-! ## Theorems -/

/-- Claim C2 (code_bug): the source intends the bare question-mark glyphs
(`'?'` twice — the list on line 88 repeats U+003F — and `'。'`) to classify
as `question_mark`, but the length-≤-2 rule on line 84 fires first, so
`analyze_intent` returns `meaningless` for every glyph and any schema; the
`question_mark` branch is dead code. -/
theorem analyze_intent_question_mark_glyphs_meaningless :
    ∀ md : Option FileMeta,
      analyze_intent ("?".data) md = Intent.meaningless ∧
      analyze_intent ("。".data) md = Intent.meaningless := by
  intro md
  exact ⟨rfl, rfl⟩

/-- Claim C3 (code_bug): the greeting pattern `^hi$` on line 93 is intended
to classify `"hi"` as `irrelevant`, but `"hi"` has length 2, so the
length-≤-2 rule on line 84 returns `meaningless` first, for every schema
(the `^hi$` and `^하이$` entries are unreachable). -/
theorem analyze_intent_hi_meaningless :
    ∀ md : Option FileMeta, analyze_intent ("hi".data) md = Intent.meaningless := by
  intro md
  rfl

instance : Inhabited Value := ⟨Value.null⟩

instance : Inhabited Dataset := ⟨⟨[], [], none⟩⟩

theorem except_bind_ok {α β : Type} {x : Except PyErr α} {f : α → Except PyErr β} {b : β} :
    (x >>= f) = Except.ok b ↔ ∃ a, x = Except.ok a ∧ f a = Except.ok b := by
  cases x <;> simp [Bind.bind, Except.bind]

theorem mapM_ok_length {α β : Type} (f : α → Except PyErr β) :
    ∀ {l : List α} {res : List β}, l.mapM f = Except.ok res → res.length = l.length := by
  intro l
  induction l with
  | nil =>
    intro res h
    rw [← List.mapM'_eq_mapM] at h
    simp [List.mapM', pure, Except.pure] at h
    simp [← h]
  | cons a t ih =>
    intro res h
    rw [← List.mapM'_eq_mapM] at h
    simp only [List.mapM'] at h
    rcases except_bind_ok.mp h with ⟨b, _, h2⟩
    rw [List.mapM'_eq_mapM] at h2
    rcases except_bind_ok.mp h2 with ⟨bs, hbs, h3⟩
    simp [pure, Except.pure] at h3
    simp [← h3, ih hbs]

theorem mapM_ok_of_all {α β : Type} (f : α → Except PyErr β) :
    ∀ {l : List α}, (∀ a ∈ l, ∃ b, f a = Except.ok b) →
      ∃ res, l.mapM f = Except.ok res := by
  intro l
  induction l with
  | nil => intro _; exact ⟨[], rfl⟩
  | cons a t ih =>
    intro h
    rcases h a (List.mem_cons_self a t) with ⟨b, hb⟩
    rcases ih (fun x hx => h x (List.mem_cons_of_mem a hx)) with ⟨res, hres⟩
    refine ⟨b :: res, ?_⟩
    rw [← List.mapM'_eq_mapM]
    simp only [List.mapM']
    rw [List.mapM'_eq_mapM, hb, hres]
    rfl

theorem dictGet_mem {r : Row} {k : Text} {v : Value} (h : dictGet r k = some v) :
    ∃ kp, kp ∈ r ∧ kp.2 = v := by
  unfold dictGet at h
  cases hf : r.find? (fun kv => kv.1 == k) with
  | none => rw [hf] at h; simp at h
  | some kp =>
    rw [hf] at h
    simp at h
    exact ⟨kp, List.mem_of_find?_eq_some hf, h⟩

theorem dictGet_isSome_of_mem {r : Row} {k : Text} (h : k ∈ r.map (fun kv => kv.1)) :
    (dictGet r k).isSome := by
  induction r with
  | nil => simp at h
  | cons kv t ih =>
    unfold dictGet
    by_cases hk : (kv.1 == k) = true
    · simp [List.find?, hk]
    · simp at h
      rcases h with h | h
      · exact absurd (by simp [h]) hk
      · have := ih (by simp [h])
        unfold dictGet at this
        cases hf : t.find? (fun kv => kv.1 == k) with
        | none => rw [hf] at this; simp at this
        | some kp => simp [List.find?, hk, hf]

theorem collectVals_ok {k : Text} :
    ∀ {rs : List Row}, (∀ r ∈ rs, (dictGet r k).isSome) →
      ∃ vs, collectVals k rs = Except.ok vs ∧
        ∀ q ∈ vs, ∃ r ∈ rs, dictGet r k = some (Value.num q) := by
  intro rs
  induction rs with
  | nil => intro _; exact ⟨[], rfl, by simp⟩
  | cons r t ih =>
    intro h
    have hr := h r (List.mem_cons_self r t)
    cases hv : dictGet r k with
    | none => rw [hv] at hr; simp at hr
    | some v =>
      cases v with
      | num q =>
        rcases ih (fun x hx => h x (List.mem_cons_of_mem r hx)) with ⟨vs, hvs, hmem⟩
        refine ⟨q :: vs, ?_, ?_⟩
        · simp [collectVals, hv, hvs, Except.map]
        · intro p hp
          rcases List.mem_cons.mp hp with hp | hp
          · exact ⟨r, List.mem_cons_self r t, by rw [hv, hp]⟩
          · rcases hmem p hp with ⟨r', hr', hgr⟩
            exact ⟨r', List.mem_cons_of_mem r hr', hgr⟩
      | str s => exact ⟨[], by simp [collectVals, hv], by simp⟩
      | null => exact ⟨[], by simp [collectVals, hv], by simp⟩

theorem buildDatasets_props {rows : List Row} :
    ∀ {ks : List Text} {ds : List Dataset}, buildDatasets rows ks = Except.ok ds →
      ∀ d ∈ ds, d.data.length = rows.length ∧
        collectVals d.label rows = Except.ok d.data := by
  intro ks
  induction ks with
  | nil =>
    intro ds h d hd
    simp [buildDatasets, pure, Except.pure] at h
    subst h
    simp at hd
  | cons k kt ih =>
    intro ds h d hd
    unfold buildDatasets at h
    rcases except_bind_ok.mp h with ⟨vs, hvs, h2⟩
    rcases except_bind_ok.mp h2 with ⟨rest, hrest, h3⟩
    by_cases hlen : vs.length = rows.length
    · simp [hlen, pure, Except.pure] at h3
      rw [← h3] at hd
      rcases List.mem_cons.mp hd with hd | hd
      · subst hd
        exact ⟨hlen, hvs⟩
      · exact ih hrest d hd
    · simp [hlen, pure, Except.pure] at h3
      rw [← h3] at hd
      exact ih hrest d hd

theorem map_data_retag (t : List Dataset) :
    (t.map (fun x => { x with type := some ("line".data) })).map Dataset.data =
      t.map Dataset.data := by
  induction t with
  | nil => rfl
  | cons a s ih =>
    show a.data :: _ = a.data :: _
    exact congrArg (a.data :: ·) ih

theorem comboTag_data (ds : List Dataset) :
    (comboTag ds).map Dataset.data = ds.map Dataset.data := by
  cases ds with
  | nil => rfl
  | cons d t =>
    show d.data :: _ = d.data :: _
    exact congrArg (d.data :: ·) (map_data_retag t)

theorem mapM_dsAvgE_ok :
    ∀ {ds : List Dataset}, (∀ d ∈ ds, d.data ≠ []) →
      ds.mapM dsAvgE = Except.ok (ds.map dsAvg) := by
  intro ds
  induction ds with
  | nil => intro _; rfl
  | cons d t ih =>
    intro h
    have hd : d.data ≠ [] := h d (List.mem_cons_self d t)
    have hlen : ¬d.data.length = 0 := by
      intro hc; exact hd (List.length_eq_zero.mp hc)
    rw [← List.mapM'_eq_mapM]
    simp only [List.mapM']
    rw [List.mapM'_eq_mapM, ih (fun x hx => h x (List.mem_cons_of_mem d hx))]
    simp [dsAvgE, hlen, Bind.bind, Except.bind, pure, Except.pure, dsAvg]

theorem determine_data_eq {labels : List Text} {ds : List Dataset} {fc u t : Text}
    {ds' : List Dataset}
    (h : determine_chart_type labels ds fc u = Except.ok (t, ds')) :
    ds'.map Dataset.data = ds.map Dataset.data := by
  unfold determine_chart_type at h
  split at h
  · simp at h
    rw [h.2]
  · split at h
    · simp at h
      rw [h.2]
    · split at h
      · simp at h
        rw [h.2]
      · split at h
        · rcases except_bind_ok.mp h with ⟨avgs, _, h2⟩
          split at h2
          · split at h2
            · simp at h2
            · split at h2
              · simp at h2
                rw [← h2.2, comboTag_data]
              · simp at h2
                rw [h2.2]
          · simp at h2
        · simp at h
          rw [h.2]

theorem foldl_add_shift : ∀ (l : List ℚ) (a : ℚ), l.foldl (fun x y => x + y) a = a + l.foldl (fun x y => x + y) 0 := by
  intro l
  induction l with
  | nil => intro a; simp
  | cons q t ih =>
    intro a
    show t.foldl _ (a + q) = a + t.foldl _ (0 + q)
    rw [ih (a + q), ih (0 + q)]
    ring

theorem listSum_pos {l : List ℚ} (hpos : ∀ q ∈ l, 0 < q) (hne : l ≠ []) :
    0 < listSum l := by
  induction l with
  | nil => exact absurd rfl hne
  | cons q t ih =>
    have hq : 0 < q := hpos q (List.mem_cons_self q t)
    show 0 < (q :: t).foldl _ 0
    have : (q :: t).foldl (fun x y => x + y) 0 = q + t.foldl (fun x y => x + y) 0 := by
      show t.foldl _ (0 + q) = _
      rw [foldl_add_shift t (0 + q)]
      ring
    rw [this]
    rcases List.eq_nil_or_concat t with ht | _
    · subst ht; simpa using hq
    · by_cases hte : t = []
      · subst hte; simpa using hq
      · have := ih (fun p hp => hpos p (List.mem_cons_of_mem q hp)) hte
        have hs : 0 < listSum t := this
        unfold listSum at hs
        linarith

theorem dsAvg_pos {d : Dataset} (hne : d.data ≠ []) (hpos : ∀ q ∈ d.data, 0 < q) :
    0 < dsAvg d := by
  unfold dsAvg
  apply div_pos (listSum_pos hpos hne)
  exact_mod_cast List.length_pos.mpr hne

theorem foldl_min_mem : ∀ (xs : List ℚ) (x : ℚ), xs.foldl min x ∈ x :: xs := by
  intro xs
  induction xs with
  | nil => intro x; simp
  | cons y t ih =>
    intro x
    show t.foldl min (min x y) ∈ x :: y :: t
    have := ih (min x y)
    rcases List.mem_cons.mp this with h | h
    · rcases min_choice x y with hc | hc
      · rw [h, hc]; exact List.mem_cons_self _ _
      · rw [h, hc]; exact List.mem_cons_of_mem _ (List.mem_cons_self _ _)
    · exact List.mem_cons_of_mem _ (List.mem_cons_of_mem _ h)

theorem pyMinQ_mem {l : List ℚ} {mn : ℚ} (h : pyMinQ l = Except.ok mn) : mn ∈ l := by
  cases l with
  | nil => simp [pyMinQ] at h
  | cons x xs =>
    simp [pyMinQ] at h
    rw [← h]
    exact foldl_min_mem xs x

/-- Totality of `_determine_chart_type` when every dataset is nonempty with
a strictly positive mean. -/
theorem determine_ok_of_pos {labels : List Text} {ds : List Dataset} {fc u : Text}
    (hposm : ∀ d ∈ ds, d.data ≠ [] ∧ 0 < dsAvg d) :
    ∃ r, determine_chart_type labels ds fc u = Except.ok r := by
  unfold determine_chart_type
  cases hkw : chartKwChoice ds.length (pyLower u) with
  | some t => exact ⟨(t, ds), rfl⟩
  | none =>
    by_cases hpie : pieInference labels.length ds.length fc
    · simp [hpie]
    · simp only [hpie, if_false]
      by_cases htime : isTimeSeriesCol fc = true
      · simp [htime]
      · simp only [Bool.not_eq_true] at htime
        simp only [htime, Bool.false_eq_true, if_false]
        by_cases h2 : 2 ≤ ds.length
        · have hne : ∀ d ∈ ds, d.data ≠ [] := fun d hd => (hposm d hd).1
          have hmap := mapM_dsAvgE_ok hne
          have hdsne : ds ≠ [] := by
            intro hc; rw [hc] at h2; simp at h2
          have havne : ds.map dsAvg ≠ [] := by
            intro hc
            exact hdsne (List.map_eq_nil.mp hc)
          simp only [h2, if_true]
          cases hav : ds.map dsAvg with
          | nil => exact absurd hav havne
          | cons a rest =>
            rw [hmap, hav]
            have hmn : pyMinQ (a :: rest) = Except.ok (rest.foldl min a) := rfl
            have hmnmem : rest.foldl min a ∈ a :: rest := foldl_min_mem rest a
            have hmnpos : 0 < rest.foldl min a := by
              rw [← hav] at hmnmem
              rcases List.mem_map.mp hmnmem with ⟨d, hd, hdeq⟩
              rw [← hdeq]
              exact (hposm d hd).2
            have hmnne : ¬(rest.foldl min a = 0) := by
              intro hc; rw [hc] at hmnpos; exact lt_irrefl 0 hmnpos
            simp only [Bind.bind, Except.bind, pyMaxQ, pyMinQ, hmnne, if_false]
            by_cases hr : rest.foldl max a / rest.foldl min a > 10
            · simp [hr]
            · simp [hr]
        · simp [h2]

theorem collectVals_mem {k : Text} :
    ∀ {rs : List Row} {vs : List ℚ}, collectVals k rs = Except.ok vs →
      ∀ q ∈ vs, ∃ r ∈ rs, dictGet r k = some (Value.num q) := by
  intro rs
  induction rs with
  | nil =>
    intro vs h q hq
    simp [collectVals] at h
    subst h
    simp at hq
  | cons r t ih =>
    intro vs h q hq
    unfold collectVals at h
    cases hv : dictGet r k with
    | none => rw [hv] at h; simp at h
    | some v =>
      rw [hv] at h
      cases v with
      | num p =>
        simp only [Except.map] at h
        cases hrec : collectVals k t with
        | error e => rw [hrec] at h; simp at h
        | ok vs' =>
          rw [hrec] at h
          simp at h
          rw [← h] at hq
          rcases List.mem_cons.mp hq with hq | hq
          · exact ⟨r, List.mem_cons_self r t, by rw [hv, hq]⟩
          · rcases ih hrec q hq with ⟨r', hr', hgr⟩
            exact ⟨r', List.mem_cons_of_mem r hr', hgr⟩
      | str s =>
        simp at h
        subst h
        simp at hq
      | null =>
        simp at h
        subst h
        simp at hq

theorem buildDatasets_ok {rows : List Row} :
    ∀ {ks : List Text}, (∀ k ∈ ks, ∀ r ∈ rows, (dictGet r k).isSome) →
      ∃ ds, buildDatasets rows ks = Except.ok ds := by
  intro ks
  induction ks with
  | nil => intro _; exact ⟨[], rfl⟩
  | cons k kt ih =>
    intro h
    rcases collectVals_ok (h k (List.mem_cons_self k kt)) with ⟨vs, hvs, _⟩
    rcases ih (fun x hx => h x (List.mem_cons_of_mem k hx)) with ⟨rest, hrest⟩
    unfold buildDatasets
    rw [hvs, hrest]
    by_cases hlen : vs.length = rows.length
    · exact ⟨⟨k, vs, none⟩ :: rest, by simp [hlen, Bind.bind, Except.bind, pure, Except.pure]⟩
    · exact ⟨rest, by simp [hlen, Bind.bind, Except.bind, pure, Except.pure]⟩

/-- Claim C5 (counterexample): on rows with an all-zero numeric column and a
second numeric column, `max_avg / min_avg` divides by zero, so the chart
selector raises `ZeroDivisionError` instead of returning a spec or absence. -/
theorem determine_combo_path {labels : List Text} {ds : List Dataset} {fc u : Text}
    (hkw : chartKwChoice ds.length (pyLower u) = none)
    (hpie : ¬ pieInference labels.length ds.length fc)
    (htime : isTimeSeriesCol fc = false)
    (h2 : 2 ≤ ds.length)
    {avgs : List ℚ} (havgs : ds.mapM dsAvgE = Except.ok avgs)
    {mx mn : ℚ} (hmx : pyMaxQ avgs = Except.ok mx) (hmn : pyMinQ avgs = Except.ok mn) :
    determine_chart_type labels ds fc u =
      (if mn = 0 then Except.error PyErr.zeroDivisionError
       else if mx / mn > 10 then Except.ok ("combo".data, comboTag ds)
       else Except.ok ("bar".data, ds)) := by
  unfold determine_chart_type
  simp only [hkw]
  rw [if_neg hpie, htime]
  simp only [Bool.false_eq_true, if_false]
  rw [if_pos h2]
  show (ds.mapM dsAvgE >>= _) = _
  rw [havgs]
  show (match pyMaxQ avgs, pyMinQ avgs with
    | Except.ok maxAvg, Except.ok minAvg =>
      if minAvg = 0 then Except.error PyErr.zeroDivisionError
      else if maxAvg / minAvg > 10 then Except.ok ("combo".data, comboTag ds)
      else Except.ok ("bar".data, ds)
    | _, _ => Except.error PyErr.valueError) = _
  rw [hmx, hmn]

/-- Claim C5 (counterexample): on rows with an all-zero numeric column and a
second numeric column, `max_avg / min_avg` divides by zero, so the chart
selector raises `ZeroDivisionError` instead of returning a spec or absence. -/
theorem chart_select_zero_mean_raises :
    prepare_chart_data zeroMeanRows [] = Except.error PyErr.zeroDivisionError := by
  have hbd : buildDatasets
      ([ [("c".data, Value.str ("x".data)), ("a".data, Value.num 0), ("b".data, Value.num 100)],
         [("c".data, Value.str ("y".data)), ("a".data, Value.num 0), ("b".data, Value.num 200)] ])
      ["a".data, "b".data] =
      Except.ok [⟨"a".data, [0, 0], none⟩, ⟨"b".data, [100, 200], none⟩] := by
    decide
  have hlab : ([ [("c".data, Value.str ("x".data)), ("a".data, Value.num 0), ("b".data, Value.num 100)],
         [("c".data, Value.str ("y".data)), ("a".data, Value.num 0), ("b".data, Value.num 200)] ]
        : List Row).mapM (fun r =>
      match dictGet r ("c".data) with
      | some v => Except.ok (pyStr v)
      | none => Except.error PyErr.keyError) = Except.ok ["x".data, "y".data] := by
    decide
  have ha : dsAvg ⟨"a".data, [0, 0], none⟩ = 0 := by
    show ((0 : ℚ) + 0 + 0) / 2 = 0
    norm_num
  have hb : dsAvg ⟨"b".data, [100, 200], none⟩ = 150 := by
    show ((0 : ℚ) + 100 + 200) / 2 = 150
    norm_num
  have havg : ([⟨"a".data, [0, 0], none⟩, ⟨"b".data, [100, 200], none⟩] : List Dataset).mapM
      dsAvgE = Except.ok [(0 : ℚ), 150] := by
    rw [mapM_dsAvgE_ok (by decide)]
    show Except.ok [dsAvg ⟨"a".data, [0, 0], none⟩, dsAvg ⟨"b".data, [100, 200], none⟩] = _
    rw [ha, hb]
  have hmx : pyMaxQ [(0 : ℚ), 150] = Except.ok 150 := by
    show Except.ok (max 0 150) = _
    rw [max_eq_right (by norm_num : (0 : ℚ) ≤ 150)]
  have hmn : pyMinQ [(0 : ℚ), 150] = Except.ok 0 := by
    show Except.ok (min 0 150) = _
    rw [min_eq_left (by norm_num : (0 : ℚ) ≤ 150)]
  have hdet : determine_chart_type ["x".data, "y".data]
      [⟨"a".data, [0, 0], none⟩, ⟨"b".data, [100, 200], none⟩] ("c".data) [] =
      Except.error PyErr.zeroDivisionError := by
    rw [determine_combo_path (by decide) (by decide) (by decide) (by decide) havg hmx hmn]
    simp
  show prepare_chart_data
    ([ [("c".data, Value.str ("x".data)), ("a".data, Value.num 0), ("b".data, Value.num 100)],
       [("c".data, Value.str ("y".data)), ("a".data, Value.num 0), ("b".data, Value.num 200)] ])
    [] = _
  simp only [prepare_chart_data, prepareWithKeys, List.map_cons, List.map_nil]
  rw [hlab]
  simp only [Bind.bind, Except.bind]
  rw [hbd]
  simp only [List.isEmpty, Bool.false_eq_true, if_false]
  rw [hdet]

/-- Claim C5 (amended): the chart selector returns (a spec or absence)
without raising on any row set whose rows all carry the same key sequence
and whose numeric cells are strictly positive; with a zero-mean dataset it
can raise, as the counterexample shows. -/
theorem prepare_chart_data_ok_of_uniform_positive (rows : List Row) (u : Text)
    (hunif : ∀ r ∈ rows, ∀ s ∈ rows, r.map (fun kv => kv.1) = s.map (fun kv => kv.1))
    (hpos : ∀ r ∈ rows, ∀ kv ∈ r, valPosB kv.2 = true) :
    ∃ res, prepare_chart_data rows u = Except.ok res := by
  cases hrows : rows with
  | nil => exact ⟨none, rfl⟩
  | cons row0 rest =>
    subst hrows
    cases hk : row0.map (fun kv => kv.1) with
    | nil =>
      refine ⟨none, ?_⟩
      show prepareWithKeys (row0 :: rest) u (row0.map (fun kv => kv.1)) = _
      rw [hk]
      rfl
    | cons k0 krest =>
      have hkeys : ∀ r ∈ row0 :: rest, r.map (fun kv => kv.1) = k0 :: krest := by
        intro r hr
        rw [hunif r hr row0 (List.mem_cons_self row0 rest), hk]
      cases krest with
      | nil =>
        refine ⟨none, ?_⟩
        show prepareWithKeys (row0 :: rest) u (row0.map (fun kv => kv.1)) = _
        rw [hk]
        rfl
      | cons k1 ktail =>
        have hsome : ∀ k ∈ k0 :: k1 :: ktail, ∀ r ∈ row0 :: rest, (dictGet r k).isSome := by
          intro k hkm r hr
          apply dictGet_isSome_of_mem
          rw [hkeys r hr]
          exact hkm
        have hlab : ∃ labels, (row0 :: rest).mapM (fun r =>
            match dictGet r k0 with
            | some v => Except.ok (pyStr v)
            | none => Except.error PyErr.keyError) = Except.ok labels := by
          apply mapM_ok_of_all
          intro r hr
          have := hsome k0 (List.mem_cons_self _ _) r hr
          cases hv : dictGet r k0 with
          | none => rw [hv] at this; simp at this
          | some v => exact ⟨pyStr v, by simp [hv]⟩
        rcases hlab with ⟨labels, hlab⟩
        have hbd : ∃ ds, buildDatasets (row0 :: rest) (k1 :: ktail) = Except.ok ds :=
          buildDatasets_ok (fun k hkm r hr => hsome k (List.mem_cons_of_mem k0 hkm) r hr)
        rcases hbd with ⟨ds, hbd⟩
        by_cases hde : ds.isEmpty
        · refine ⟨none, ?_⟩
          show prepareWithKeys (row0 :: rest) u (row0.map (fun kv => kv.1)) = _
          rw [hk]
          show ((row0 :: rest).mapM _ >>= _) = _
          rw [hlab]
          simp only [Bind.bind, Except.bind]
          rw [hbd]
          simp [hde, Bind.bind, Except.bind, pure, Except.pure]
        · have hprops := buildDatasets_props hbd
          have hposm : ∀ d ∈ ds, d.data ≠ [] ∧ 0 < dsAvg d := by
            intro d hd
            have hlen := (hprops d hd).1
            have hcv := (hprops d hd).2
            have hne : d.data ≠ [] := by
              intro hc
              rw [hc] at hlen
              simp at hlen
            refine ⟨hne, dsAvg_pos hne ?_⟩
            intro q hq
            rcases collectVals_mem hcv q hq with ⟨r, hr, hgr⟩
            rcases dictGet_mem hgr with ⟨kp, hkp, hkpv⟩
            have := hpos r hr kp hkp
            rw [hkpv] at this
            simpa [valPosB] using this
          rcases @determine_ok_of_pos labels _ k0 u hposm
            with ⟨⟨ct, ds'⟩, hdet⟩
          refine ⟨some ⟨labels, ds', ct⟩, ?_⟩
          show prepareWithKeys (row0 :: rest) u (row0.map (fun kv => kv.1)) = _
          rw [hk]
          show ((row0 :: rest).mapM _ >>= _) = _
          rw [hlab]
          simp only [Bind.bind, Except.bind]
          rw [hbd]
          simp [hde, hdet, Bind.bind, Except.bind, pure, Except.pure]

/-- Claim C5 (witness): on two uniform rows with positive numeric values,
the selector completes without raising. -/
theorem prepare_chart_data_ok_witness :
    (∀ r ∈ comboRows, ∀ s ∈ comboRows,
        r.map (fun kv => kv.1) = s.map (fun kv => kv.1)) ∧
    (∀ r ∈ comboRows, ∀ kv ∈ r, valPosB kv.2 = true) ∧
    ∃ res, prepare_chart_data comboRows [] = Except.ok res :=
  ⟨by decide, by decide,
    prepare_chart_data_ok_of_uniform_positive comboRows [] (by decide) (by decide)⟩

/-- Claim C6 (confirmed): whenever the chart selector emits a `ChartData`,
every dataset's value sequence has exactly the length of the labels
sequence, and the dataset list is nonempty — a chart with zero datasets is
never emitted (the selector returns absence instead). -/
theorem chart_spec_invariants {rows : List Row} {u : Text} {chart : ChartData}
    (h : prepare_chart_data rows u = Except.ok (some chart)) :
    (∀ d ∈ chart.datasets, d.data.length = chart.labels.length) ∧
      chart.datasets ≠ [] := by
  cases rows with
  | nil => simp [prepare_chart_data] at h
  | cons row0 rest =>
    have h' : prepareWithKeys (row0 :: rest) u (row0.map (fun kv => kv.1)) =
        Except.ok (some chart) := h
    cases hk : row0.map (fun kv => kv.1) with
    | nil =>
      rw [hk] at h'
      simp [prepareWithKeys] at h'
    | cons k0 krest =>
      cases krest with
      | nil =>
        rw [hk] at h'
        simp [prepareWithKeys] at h'
      | cons k1 ktail =>
        rw [hk] at h'
        unfold prepareWithKeys at h'
        rcases except_bind_ok.mp h' with ⟨labels, hlab, h2⟩
        rcases except_bind_ok.mp h2 with ⟨ds, hbd, h3⟩
        by_cases hde : ds.isEmpty
        · simp [hde, pure, Except.pure] at h3
        · simp only [hde, Bool.false_eq_true, if_false] at h3
          rcases except_bind_ok.mp h3 with ⟨⟨ct, ds'⟩, hdet, h4⟩
          simp [pure, Except.pure] at h4
          subst h4
          have hlablen : labels.length = (row0 :: rest).length := mapM_ok_length _ hlab
          have hdata : ds'.map Dataset.data = ds.map Dataset.data := determine_data_eq hdet
          constructor
          · intro d hd
            show d.data.length = labels.length
            have hmem : d.data ∈ ds'.map Dataset.data :=
              List.mem_map_of_mem Dataset.data hd
            rw [hdata] at hmem
            rcases List.mem_map.mp hmem with ⟨d0, hd0, hdeq⟩
            have := (buildDatasets_props hbd d0 hd0).1
            rw [← hdeq, this, hlablen]
          · show ds' ≠ []
            intro hc
            have hdne : ds ≠ [] := by
              intro hc2
              rw [hc2] at hde
              exact hde rfl
            rw [hc] at hdata
            simp at hdata
            exact hdne hdata

/-- Claim C6 (witness): a two-row temporal result yields a chart whose
single dataset has two values, matching the two labels. -/
theorem chart_spec_invariants_witness :
    prepare_chart_data monthRows [] =
      Except.ok (some ⟨["2024-01".data, "2024-02".data],
        [⟨"temp".data, [5, 25], none⟩], "area".data⟩) ∧
    (∀ d ∈ ([⟨"temp".data, [5, 25], none⟩] : List Dataset),
        d.data.length = (["2024-01".data, "2024-02".data] : List Text).length) ∧
    ([⟨"temp".data, [5, 25], none⟩] : List Dataset) ≠ [] := by
  have h : prepare_chart_data monthRows [] =
      Except.ok (some ⟨["2024-01".data, "2024-02".data],
        [⟨"temp".data, [5, 25], none⟩], "area".data⟩) := by decide
  exact ⟨h, (chart_spec_invariants h).1, (chart_spec_invariants h).2⟩

/-- Claim C7 (confirmed): with at least two numeric datasets, no chart
keyword in the user text, a non-temporal label column, and the largest
dataset mean exceeding ten times the smallest, the selector returns kind
`combo` with the first dataset tagged `bar` and every subsequent dataset
tagged `line`. -/
theorem determine_chart_type_scale_combo
    (labels : List Text) (d0 : Dataset) (drest : List Dataset) (fc u : Text) (mx mn : ℚ)
    (hkw : chartKwChoice (d0 :: drest).length (pyLower u) = none)
    (htime : isTimeSeriesCol fc = false)
    (hne : ∀ d ∈ d0 :: drest, d.data ≠ [])
    (h2 : 2 ≤ (d0 :: drest).length)
    (hmx : pyMaxQ ((d0 :: drest).map dsAvg) = Except.ok mx)
    (hmn : pyMinQ ((d0 :: drest).map dsAvg) = Except.ok mn)
    (hr : mx / mn > 10) :
    determine_chart_type labels (d0 :: drest) fc u =
      Except.ok ("combo".data,
        { d0 with type := some ("bar".data) } ::
          drest.map (fun x => { x with type := some ("line".data) })) := by
  have hpie : ¬ pieInference labels.length (d0 :: drest).length fc := by
    intro hp
    rcases hp with ⟨_, hp1, _⟩
    rw [hp1] at h2
    exact absurd h2 (by norm_num)
  have havgs := mapM_dsAvgE_ok hne
  rw [determine_combo_path hkw hpie htime h2 havgs hmx hmn]
  have hmn0 : ¬ mn = 0 := by
    intro hc
    rw [hc, div_zero] at hr
    exact absurd hr (by norm_num)
  rw [if_neg hmn0, if_pos hr]
  rfl

/-- Claim C7 (witness): dataset means 1000 and 5 (ratio 200 > 10) with no
keyword and a categorical label column produce a combo chart, first
dataset `bar`, second `line`. -/
theorem determine_chart_type_scale_combo_witness :
    determine_chart_type (["a".data, "b".data])
      [⟨"x".data, [1000, 1000], none⟩, ⟨"y".data, [5, 5], none⟩] ("cat".data) [] =
      Except.ok ("combo".data,
        [⟨"x".data, [1000, 1000], some ("bar".data)⟩,
         ⟨"y".data, [5, 5], some ("line".data)⟩]) := by
  have h1000 : dsAvg ⟨"x".data, [1000, 1000], none⟩ = 1000 := by
    show ((0 : ℚ) + 1000 + 1000) / 2 = 1000
    norm_num
  have h5 : dsAvg ⟨"y".data, [5, 5], none⟩ = 5 := by
    show ((0 : ℚ) + 5 + 5) / 2 = 5
    norm_num
  have hmx : pyMaxQ (([⟨"x".data, [1000, 1000], none⟩, ⟨"y".data, [5, 5], none⟩]
      : List Dataset).map dsAvg) = Except.ok 1000 := by
    show Except.ok (max (dsAvg ⟨"x".data, [1000, 1000], none⟩)
      (dsAvg ⟨"y".data, [5, 5], none⟩)) = _
    rw [h1000, h5, max_eq_left (by norm_num : (5 : ℚ) ≤ 1000)]
  have hmn : pyMinQ (([⟨"x".data, [1000, 1000], none⟩, ⟨"y".data, [5, 5], none⟩]
      : List Dataset).map dsAvg) = Except.ok 5 := by
    show Except.ok (min (dsAvg ⟨"x".data, [1000, 1000], none⟩)
      (dsAvg ⟨"y".data, [5, 5], none⟩)) = _
    rw [h1000, h5, min_eq_right (by norm_num : (5 : ℚ) ≤ 1000)]
  exact determine_chart_type_scale_combo _ _ _ _ _ 1000 5 (by decide) (by decide)
    (by decide) (by decide) hmx hmn (by norm_num)

theorem genericFallback_length {md : FileMeta} {qs : List Text}
    (h : genericFallback md = some qs) : qs.length = 4 := by
  unfold genericFallback at h
  cases hmc : md.columns with
  | nil =>
    rw [hmc] at h
    simp at h
  | cons c t =>
    rw [hmc] at h
    simp at h
    rw [← h]
    rfl

/-- Claim C10 (confirmed): `get_cached_suggestions` never touches the
language-model collaborator, returns at most 4 strings, and every returned
string comes from the stored pool or from the 4-entry default list (the
store fetch is the only collaborator call; a store failure or an empty
column list yields the empty answer). -/
theorem get_cached_suggestions_spec (md : FileMeta)
    (fetched : Except Unit (Option (List Text)))
    (sampler : List Text → Nat → List Text)
    (hs : ∀ xs n, n ≤ xs.length →
      (sampler xs n).length = n ∧ ∀ q ∈ sampler xs n, q ∈ xs) :
    Collab.lm ∉ (get_cached_suggestions md fetched sampler).2 ∧
    (get_cached_suggestions md fetched sampler).1.length ≤ 4 ∧
    ∀ q ∈ (get_cached_suggestions md fetched sampler).1,
      (∃ pool, fetched = Except.ok (some pool) ∧ q ∈ pool) ∨
      (∃ fb, genericFallback md = some fb ∧ q ∈ fb) := by
  cases fetched with
  | error e =>
    refine ⟨by simp [get_cached_suggestions], by simp [get_cached_suggestions], ?_⟩
    intro q hq
    simp [get_cached_suggestions] at hq
  | ok st =>
    cases st with
    | some questions =>
      by_cases h4 : 4 ≤ questions.length
      · have hsq := hs questions 4 h4
        refine ⟨by simp [get_cached_suggestions], ?_, ?_⟩
        · show (if 4 ≤ questions.length then sampler questions 4 else questions).length ≤ 4
          rw [if_pos h4, hsq.1]
        · intro q hq
          rw [show (get_cached_suggestions md (Except.ok (some questions)) sampler).1 =
            sampler questions 4 from by simp [get_cached_suggestions, h4]] at hq
          exact Or.inl ⟨questions, rfl, hsq.2 q hq⟩
      · refine ⟨by simp [get_cached_suggestions], ?_, ?_⟩
        · show (if 4 ≤ questions.length then sampler questions 4 else questions).length ≤ 4
          rw [if_neg h4]
          omega
        · intro q hq
          rw [show (get_cached_suggestions md (Except.ok (some questions)) sampler).1 =
            questions from by simp [get_cached_suggestions, h4]] at hq
          exact Or.inl ⟨questions, rfl, hq⟩
    | none =>
      cases hf : genericFallback md with
      | some qs =>
        refine ⟨by simp [get_cached_suggestions, hf], ?_, ?_⟩
        · rw [show (get_cached_suggestions md (Except.ok none) sampler).1 = qs from by
            simp [get_cached_suggestions, hf]]
          rw [genericFallback_length hf]
        · intro q hq
          rw [show (get_cached_suggestions md (Except.ok none) sampler).1 = qs from by
            simp [get_cached_suggestions, hf]] at hq
          exact Or.inr ⟨qs, rfl, hq⟩
      | none =>
        refine ⟨by simp [get_cached_suggestions, hf], ?_, ?_⟩
        · rw [show (get_cached_suggestions md (Except.ok none) sampler).1 = [] from by
            simp [get_cached_suggestions, hf]]
          simp
        · intro q hq
          rw [show (get_cached_suggestions md (Except.ok none) sampler).1 = [] from by
            simp [get_cached_suggestions, hf]] at hq
          simp at hq

def samplePool : List Text :=
  ["q1".data, "q2".data, "q3".data, "q4".data, "q5".data]

/-- Claim C10 (witness): with a five-question pool and a take-based
sampler, the cache serves four questions from the pool without a
language-model call. -/
theorem get_cached_suggestions_spec_witness :
    (get_cached_suggestions ⟨"weather.csv".data, [⟨"온도".data⟩]⟩
        (Except.ok (some samplePool)) (fun xs n => xs.take n)).1 =
      ["q1".data, "q2".data, "q3".data, "q4".data] ∧
    Collab.lm ∉ (get_cached_suggestions ⟨"weather.csv".data, [⟨"온도".data⟩]⟩
        (Except.ok (some samplePool)) (fun xs n => xs.take n)).2 ∧
    (get_cached_suggestions ⟨"weather.csv".data, [⟨"온도".data⟩]⟩
        (Except.ok (some samplePool)) (fun xs n => xs.take n)).1.length ≤ 4 ∧
    ∀ q ∈ (get_cached_suggestions ⟨"weather.csv".data, [⟨"온도".data⟩]⟩
        (Except.ok (some samplePool)) (fun xs n => xs.take n)).1,
      (∃ pool, (Except.ok (some samplePool) : Except Unit (Option (List Text))) =
          Except.ok (some pool) ∧ q ∈ pool) ∨
      (∃ fb, genericFallback ⟨"weather.csv".data, [⟨"온도".data⟩]⟩ = some fb ∧ q ∈ fb) :=
  ⟨by decide,
    get_cached_suggestions_spec _ _ _
      (fun xs n h => ⟨by rw [List.length_take]; omega,
        fun q hq => List.mem_of_mem_take hq⟩)⟩

/-- Claim C4 (confirmed): when the language-model response to a
query-intent message contains no fenced query block, the streaming
orchestrator uses the whole response as the final answer, attaches no SQL
and no chart, and never touches the query engine — a successful, non-error
outcome. -/
theorem stream_no_query_block_is_final_answer (userMsg content : Text)
    (engineResult : Option (List Row)) (h : extract_sql content = none) :
    stream_query_branch userMsg (some content) engineResult =
      ⟨content, none, none, [Collab.lm]⟩ ∧
    Collab.engine ∉ (stream_query_branch userMsg (some content) engineResult).calls := by
  have hg : generate_sql_from content = none := by
    unfold generate_sql_from
    rw [h]
  have heq : stream_query_branch userMsg (some content) engineResult =
      ⟨content, none, none, [Collab.lm]⟩ := by
    simp only [stream_query_branch, hg]
    rfl
  refine ⟨heq, ?_⟩
  rw [heq]
  simp

/-- Claim C4 (witness): a clarifying-question response with no fenced
block terminates with the text itself and no execution. -/
theorem stream_no_query_block_witness :
    extract_sql ("Which column do you mean?".data) = none ∧
    stream_query_branch ("온도 알려줘".data) (some ("Which column do you mean?".data)) none =
      ⟨"Which column do you mean?".data, none, none, [Collab.lm]⟩ ∧
    Collab.engine ∉ (stream_query_branch ("온도 알려줘".data)
      (some ("Which column do you mean?".data)) none).calls :=
  ⟨by decide,
    (stream_no_query_block_is_final_answer _ _ none (by decide)).1,
    (stream_no_query_block_is_final_answer _ _ none (by decide)).2⟩

/-- Claim C1 (counterexample): the message `"이건 뭐야"` classifies as
`explanation` — not `query` — yet `process_query` invokes the query-engine
collaborator (`handle_explanation` runs `SELECT * FROM data LIMIT 5`),
contradicting the claim that non-query intents never invoke it. -/
theorem process_query_explanation_invokes_engine :
    analyze_intent ("이건 뭐야".data) none = Intent.explanation ∧
    analyze_intent ("이건 뭐야".data) none ≠ Intent.query ∧
    process_query_calls ("이건 뭐야".data) envNoStore = [Collab.engine] := by
  refine ⟨by decide, by decide, by decide⟩

/-- Claim C1 (amended): for every message whose classified intent is not
`query`, `process_query` dispatches exactly per the amended table:
`explanation` resolves with one query-engine call and `metadata` with no
collaborator call, both regardless of the chart-request flag;
`question_mark` serves suggestions (store fetch, plus a language-model
call and store writes when no non-empty pool is stored) regardless of the
flag; `irrelevant` and `meaningless` resolve locally (nothing,
resp. suggestion serving) only when the message is not a chart request
and fall through to the full query path when it is — the chart-request
override exists only on those two branches; `unrelated_to_data` always
takes the query path. -/
theorem process_query_non_query_routes (msg : Text) (env : AgentEnv)
    (h1 : analyze_intent msg none ≠ Intent.query) :
    process_query_calls msg env
      = local_branch_calls (analyze_intent msg none) (chart_request msg) env := by
  obtain ⟨sf, sok, slm, eok⟩ := env
  simp only [process_query_calls, local_branch_calls]
  cases hint : analyze_intent msg none with
  | query => exact absurd hint h1
  | question_mark => cases sf <;> rfl
  | irrelevant => rfl
  | meaningless =>
    by_cases hc : chart_request msg = false
    · rw [hc]
      cases sf <;> rfl
    · have hc2 : chart_request msg = true := by
        cases hb : chart_request msg
        · exact absurd hb hc
        · rfl
      rw [hc2]
      rfl
  | explanation => rfl
  | metadata => rfl
  | unrelated_to_data => rfl

/-- Claim C1 (witness): "차트 설명해줘" matches a chart-request pattern
(`^차트`) yet classifies as `explanation`, so it is dispatched to the
explanation branch — exactly one query-engine call, not the query path:
the chart-request override does not reach the `explanation` branch. -/
theorem process_query_non_query_routes_witness :
    analyze_intent ("차트 설명해줘".data) none ≠ Intent.query ∧
    chart_request ("차트 설명해줘".data) = true ∧
    process_query_calls ("차트 설명해줘".data) envNoStore =
      local_branch_calls (analyze_intent ("차트 설명해줘".data) none)
        (chart_request ("차트 설명해줘".data)) envNoStore ∧
    process_query_calls ("차트 설명해줘".data) envNoStore = [Collab.engine] :=
  ⟨by decide, by decide,
    process_query_non_query_routes _ envNoStore (by decide), by decide⟩

theorem infix_of_pref {l t : Text} (h : l <+: t) : l <:+: t := by
  rcases h with ⟨r, hr⟩
  exact ⟨[], r, by simpa using hr⟩

theorem infix_cons_of {l t : Text} (a : Char) (h : l <:+: t) : l <:+: a :: t := by
  rcases h with ⟨s, r, hsr⟩
  exact ⟨a :: s, r, by simp [← hsr]⟩

theorem infix_app_right {l t : Text} (s : Text) (h : l <:+: t) : l <:+: s ++ t := by
  induction s with
  | nil => simpa using h
  | cons a s' ih => exact infix_cons_of a ih

theorem suffix_cons_of {l t : Text} (a : Char) (h : l <:+ t) : l <:+ a :: t := by
  rcases h with ⟨s, hs⟩
  exact ⟨a :: s, by simp [← hs]⟩

theorem pref_nil_iff {l : Text} : l <+: ([] : Text) ↔ l = [] := by
  constructor
  · rintro ⟨r, hr⟩
    exact (List.append_eq_nil.mp hr).1
  · rintro rfl
    exact ⟨[], rfl⟩

theorem infix_nil_iff {l : Text} : l <:+: ([] : Text) ↔ l = [] := by
  constructor
  · rintro ⟨s, r, hsr⟩
    rcases List.append_eq_nil.mp hsr with ⟨h1, _⟩
    exact (List.append_eq_nil.mp h1).2
  · rintro rfl
    exact ⟨[], [], rfl⟩

theorem cons_pref_cons {a b : Char} {l t : Text} :
    a :: l <+: b :: t ↔ a = b ∧ l <+: t := by
  constructor
  · rintro ⟨r, hr⟩
    injection hr with h1 h2
    exact ⟨h1, r, h2⟩
  · rintro ⟨rfl, r, hr⟩
    exact ⟨r, by rw [List.cons_append, hr]⟩

theorem infix_cons_split {l : Text} {a : Char} {t : Text} :
    l <:+: a :: t ↔ l <+: a :: t ∨ l <:+: t := by
  constructor
  · rintro ⟨s, r, hsr⟩
    cases s with
    | nil => exact Or.inl ⟨r, by simpa using hsr⟩
    | cons x s' =>
      injection hsr with _ h2
      exact Or.inr ⟨s', r, h2⟩
  · rintro (h | h)
    · exact infix_of_pref h
    · exact infix_cons_of a h

theorem prefOf_iff : ∀ {p s : Text}, isPrefOf p s = true ↔ p <+: s := by
  intro p
  induction p with
  | nil =>
    intro s
    simp [isPrefOf]
  | cons a as ih =>
    intro s
    cases s with
    | nil =>
      simp [isPrefOf]
    | cons b bs =>
      simp only [isPrefOf, Bool.and_eq_true, beq_iff_eq]
      rw [cons_pref_cons, ih]

theorem subOf_iff : ∀ {n h : Text}, isSub n h = true ↔ n <:+: h := by
  intro n h
  induction h with
  | nil =>
    simp [isSub, infix_nil_iff, List.isEmpty_iff]
  | cons c t ih =>
    simp only [isSub, Bool.or_eq_true, prefOf_iff, ih]
    rw [infix_cons_split]

theorem pref_app_cases {n a b : Text} (h : n <+: a ++ b) :
    n <+: a ∨ ∃ n2, n = a ++ n2 ∧ n2 <+: b := by
  induction a generalizing n with
  | nil => exact Or.inr ⟨n, by simp, by simpa using h⟩
  | cons x a' ih =>
    cases n with
    | nil => exact Or.inl ⟨x :: a', rfl⟩
    | cons y nt =>
      rw [List.cons_append, cons_pref_cons] at h
      rcases h with ⟨rfl, h2⟩
      rcases ih h2 with h3 | ⟨n2, hn2, hp⟩
      · exact Or.inl (cons_pref_cons.mpr ⟨rfl, h3⟩)
      · exact Or.inr ⟨n2, by rw [hn2]; rfl, hp⟩

theorem infix_app_cases {n a b : Text} (h : n <:+: a ++ b) :
    n <:+: a ∨ n <:+: b ∨
      ∃ n1 n2, n = n1 ++ n2 ∧ n1 ≠ [] ∧ n2 ≠ [] ∧ n1 <:+ a ∧ n2 <+: b := by
  induction a generalizing n with
  | nil => exact Or.inr (Or.inl (by simpa using h))
  | cons x a' ih =>
    rw [List.cons_append, infix_cons_split] at h
    rcases h with h | h
    · rw [← List.cons_append] at h
      rcases pref_app_cases h with h2 | ⟨n2, hn2, hp⟩
      · exact Or.inl (infix_of_pref h2)
      · cases n2 with
        | nil =>
          rw [List.append_nil] at hn2
          exact Or.inl (by rw [hn2])
        | cons z n2' =>
          exact Or.inr (Or.inr ⟨x :: a', z :: n2', hn2, by simp, by simp,
            List.suffix_refl _, hp⟩)
    · rcases ih h with h2 | h2 | ⟨n1, n2, hn, h1, h2', hs, hp⟩
      · exact Or.inl (infix_cons_of x h2)
      · exact Or.inr (Or.inl h2)
      · exact Or.inr (Or.inr ⟨n1, n2, hn, h1, h2', suffix_cons_of x hs, hp⟩)

theorem replaceAll_nil (pat rep : Text) : replaceAll pat rep [] = [] := by
  unfold replaceAll
  rfl

theorem replaceAll_cons_pos {pat rep : Text} {c : Char} {cs : Text}
    (hc : pat ≠ [] ∧ isPrefOf pat (c :: cs) = true) :
    replaceAll pat rep (c :: cs) =
      rep ++ replaceAll pat rep ((c :: cs).drop pat.length) := by
  conv_lhs => simp only [replaceAll]
  rw [dif_pos hc]

theorem replaceAll_cons_neg {pat rep : Text} {c : Char} {cs : Text}
    (hc : ¬(pat ≠ [] ∧ isPrefOf pat (c :: cs) = true)) :
    replaceAll pat rep (c :: cs) = c :: replaceAll pat rep cs := by
  conv_lhs => simp only [replaceAll]
  rw [dif_neg hc]

theorem replaceAll_eq_or_has_rep (pat rep : Text) (s : Text) :
    replaceAll pat rep s = s ∨ rep <:+: replaceAll pat rep s := by
  have H : ∀ (m : Nat) (s : Text), s.length ≤ m →
      replaceAll pat rep s = s ∨ rep <:+: replaceAll pat rep s := by
    intro m
    induction m with
    | zero =>
      intro s hs
      rw [List.length_eq_zero.mp (Nat.le_zero.mp hs)]
      exact Or.inl (replaceAll_nil pat rep)
    | succ m ih =>
      intro s hs
      cases s with
      | nil => exact Or.inl (replaceAll_nil pat rep)
      | cons c cs =>
        by_cases hc : pat ≠ [] ∧ isPrefOf pat (c :: cs) = true
        · rw [replaceAll_cons_pos hc]
          exact Or.inr (infix_of_pref ⟨_, rfl⟩)
        · rw [replaceAll_cons_neg hc]
          rcases ih cs (by simp at hs; omega) with h | h
          · exact Or.inl (by rw [h])
          · exact Or.inr (infix_cons_of c h)
  exact H s.length s le_rfl

theorem replaceAll_id_of_not_mem {pat rep : Text} {c0 : Char} (hc0 : c0 ∈ pat) :
    ∀ s : Text, c0 ∉ s → replaceAll pat rep s = s := by
  have H : ∀ (m : Nat) (s : Text), s.length ≤ m → c0 ∉ s → replaceAll pat rep s = s := by
    intro m
    induction m with
    | zero =>
      intro s hs _
      rw [List.length_eq_zero.mp (Nat.le_zero.mp hs)]
      exact replaceAll_nil pat rep
    | succ m ih =>
      intro s hs hns
      cases s with
      | nil => exact replaceAll_nil pat rep
      | cons c cs =>
        have hnp : ¬(pat ≠ [] ∧ isPrefOf pat (c :: cs) = true) := by
          rintro ⟨_, hp⟩
          exact hns ((prefOf_iff.mp hp).subset hc0)
        rw [replaceAll_cons_neg hnp,
          ih cs (by simp at hs; omega) (fun hm => hns (List.mem_cons_of_mem c hm))]
  exact fun s => H s.length s le_rfl

theorem mem_replaceAll {pat rep : Text} {a : Char} :
    ∀ s : Text, a ∈ replaceAll pat rep s → a ∈ s ∨ a ∈ rep := by
  have H : ∀ (m : Nat) (s : Text), s.length ≤ m →
      a ∈ replaceAll pat rep s → a ∈ s ∨ a ∈ rep := by
    intro m
    induction m with
    | zero =>
      intro s hs ha
      rw [List.length_eq_zero.mp (Nat.le_zero.mp hs), replaceAll_nil pat rep] at ha
      simp at ha
    | succ m ih =>
      intro s hs ha
      cases s with
      | nil =>
        rw [replaceAll_nil pat rep] at ha
        simp at ha
      | cons c cs =>
        by_cases hc : pat ≠ [] ∧ isPrefOf pat (c :: cs) = true
        · rw [replaceAll_cons_pos hc] at ha
          rcases List.mem_append.mp ha with h | h
          · exact Or.inr h
          · have hlen : ((c :: cs).drop pat.length).length ≤ m := by
              have hp : 0 < pat.length := List.length_pos.mpr hc.1
              simp at hs ⊢
              omega
            rcases ih _ hlen h with h2 | h2
            · exact Or.inl (List.drop_subset _ _ h2)
            · exact Or.inr h2
        · rw [replaceAll_cons_neg hc] at ha
          rcases List.mem_cons.mp ha with h | h
          · exact Or.inl (by rw [h]; exact List.mem_cons_self c cs)
          · rcases ih cs (by simp at hs; omega) h with h2 | h2
            · exact Or.inl (List.mem_cons_of_mem c h2)
            · exact Or.inr h2
  exact fun s => H s.length s le_rfl

theorem upperChar_mem (c : Char) : upperChar c ∈ c :: ucLetters := by
  unfold upperChar
  by_cases h97 : c.toNat = 97
  · rw [if_pos h97]
    exact List.mem_cons_of_mem _ (by decide)
  rw [if_neg h97]
  by_cases h98 : c.toNat = 98
  · rw [if_pos h98]
    exact List.mem_cons_of_mem _ (by decide)
  rw [if_neg h98]
  by_cases h99 : c.toNat = 99
  · rw [if_pos h99]
    exact List.mem_cons_of_mem _ (by decide)
  rw [if_neg h99]
  by_cases h100 : c.toNat = 100
  · rw [if_pos h100]
    exact List.mem_cons_of_mem _ (by decide)
  rw [if_neg h100]
  by_cases h101 : c.toNat = 101
  · rw [if_pos h101]
    exact List.mem_cons_of_mem _ (by decide)
  rw [if_neg h101]
  by_cases h102 : c.toNat = 102
  · rw [if_pos h102]
    exact List.mem_cons_of_mem _ (by decide)
  rw [if_neg h102]
  by_cases h103 : c.toNat = 103
  · rw [if_pos h103]
    exact List.mem_cons_of_mem _ (by decide)
  rw [if_neg h103]
  by_cases h104 : c.toNat = 104
  · rw [if_pos h104]
    exact List.mem_cons_of_mem _ (by decide)
  rw [if_neg h104]
  by_cases h105 : c.toNat = 105
  · rw [if_pos h105]
    exact List.mem_cons_of_mem _ (by decide)
  rw [if_neg h105]
  by_cases h106 : c.toNat = 106
  · rw [if_pos h106]
    exact List.mem_cons_of_mem _ (by decide)
  rw [if_neg h106]
  by_cases h107 : c.toNat = 107
  · rw [if_pos h107]
    exact List.mem_cons_of_mem _ (by decide)
  rw [if_neg h107]
  by_cases h108 : c.toNat = 108
  · rw [if_pos h108]
    exact List.mem_cons_of_mem _ (by decide)
  rw [if_neg h108]
  by_cases h109 : c.toNat = 109
  · rw [if_pos h109]
    exact List.mem_cons_of_mem _ (by decide)
  rw [if_neg h109]
  by_cases h110 : c.toNat = 110
  · rw [if_pos h110]
    exact List.mem_cons_of_mem _ (by decide)
  rw [if_neg h110]
  by_cases h111 : c.toNat = 111
  · rw [if_pos h111]
    exact List.mem_cons_of_mem _ (by decide)
  rw [if_neg h111]
  by_cases h112 : c.toNat = 112
  · rw [if_pos h112]
    exact List.mem_cons_of_mem _ (by decide)
  rw [if_neg h112]
  by_cases h113 : c.toNat = 113
  · rw [if_pos h113]
    exact List.mem_cons_of_mem _ (by decide)
  rw [if_neg h113]
  by_cases h114 : c.toNat = 114
  · rw [if_pos h114]
    exact List.mem_cons_of_mem _ (by decide)
  rw [if_neg h114]
  by_cases h115 : c.toNat = 115
  · rw [if_pos h115]
    exact List.mem_cons_of_mem _ (by decide)
  rw [if_neg h115]
  by_cases h116 : c.toNat = 116
  · rw [if_pos h116]
    exact List.mem_cons_of_mem _ (by decide)
  rw [if_neg h116]
  by_cases h117 : c.toNat = 117
  · rw [if_pos h117]
    exact List.mem_cons_of_mem _ (by decide)
  rw [if_neg h117]
  by_cases h118 : c.toNat = 118
  · rw [if_pos h118]
    exact List.mem_cons_of_mem _ (by decide)
  rw [if_neg h118]
  by_cases h119 : c.toNat = 119
  · rw [if_pos h119]
    exact List.mem_cons_of_mem _ (by decide)
  rw [if_neg h119]
  by_cases h120 : c.toNat = 120
  · rw [if_pos h120]
    exact List.mem_cons_of_mem _ (by decide)
  rw [if_neg h120]
  by_cases h121 : c.toNat = 121
  · rw [if_pos h121]
    exact List.mem_cons_of_mem _ (by decide)
  rw [if_neg h121]
  by_cases h122 : c.toNat = 122
  · rw [if_pos h122]
    exact List.mem_cons_of_mem _ (by decide)
  rw [if_neg h122]
  exact List.mem_cons_self _ _

theorem upperChar_out (c : Char) : upperChar c = c ∨ upperChar c ∈ ucLetters := by
  rcases List.mem_cons.mp (upperChar_mem c) with h | h
  · exact Or.inl h
  · exact Or.inr h

theorem upperChar_eq_iff {p : Char} (hfix : upperChar p = p) (hnl : p ∉ ucLetters)
    (c : Char) : upperChar c = p ↔ c = p := by
  constructor
  · intro h
    rcases upperChar_out c with ho | ho
    · rw [← ho, h]
    · rw [h] at ho
      exact absurd ho hnl
  · rintro rfl
    exact hfix

theorem prefOf_upper {pat : Text} (hp : ∀ p ∈ pat, upperChar p = p ∧ p ∉ ucLetters) :
    ∀ s : Text, isPrefOf pat (pyUpper s) = isPrefOf pat s := by
  induction pat with
  | nil => intro s; rfl
  | cons p ps ih =>
    intro s
    cases s with
    | nil => rfl
    | cons c cs =>
      have h1 := hp p (List.mem_cons_self _ _)
      show (p == upperChar c && isPrefOf ps (pyUpper cs)) = (p == c && isPrefOf ps cs)
      rw [ih (fun x hx => hp x (List.mem_cons_of_mem p hx)) cs]
      by_cases hc : c = p
      · subst hc
        rw [h1.1]
      · have hne : upperChar c ≠ p := fun he => hc ((upperChar_eq_iff h1.1 h1.2 c).mp he)
        rw [beq_eq_false_iff_ne.mpr (Ne.symm hne), beq_eq_false_iff_ne.mpr (Ne.symm hc)]

theorem pyUpper_replaceAll {pat rep : Text}
    (hp : ∀ p ∈ pat, upperChar p = p ∧ p ∉ ucLetters) (hrep : pyUpper rep = rep) :
    ∀ s : Text, pyUpper (replaceAll pat rep s) = replaceAll pat rep (pyUpper s) := by
  have H : ∀ (m : Nat) (s : Text), s.length ≤ m →
      pyUpper (replaceAll pat rep s) = replaceAll pat rep (pyUpper s) := by
    intro m
    induction m with
    | zero =>
      intro s hs
      rw [List.length_eq_zero.mp (Nat.le_zero.mp hs)]
      rw [replaceAll_nil pat rep]
      show ([] : Text) = replaceAll pat rep ([] : Text)
      rw [replaceAll_nil pat rep]
    | succ m ih =>
      intro s hs
      cases s with
      | nil =>
        rw [replaceAll_nil pat rep]
        show ([] : Text) = replaceAll pat rep ([] : Text)
        rw [replaceAll_nil pat rep]
      | cons c cs =>
        have hup : pyUpper (c :: cs) = upperChar c :: pyUpper cs := rfl
        by_cases hc : pat ≠ [] ∧ isPrefOf pat (c :: cs) = true
        · have hc' : pat ≠ [] ∧ isPrefOf pat (upperChar c :: pyUpper cs) = true := by
            refine ⟨hc.1, ?_⟩
            rw [show (upperChar c :: pyUpper cs) = pyUpper (c :: cs) from rfl,
              prefOf_upper hp (c :: cs)]
            exact hc.2
          rw [replaceAll_cons_pos hc, hup, replaceAll_cons_pos hc']
          rw [show pyUpper (rep ++ replaceAll pat rep ((c :: cs).drop pat.length)) =
            pyUpper rep ++ pyUpper (replaceAll pat rep ((c :: cs).drop pat.length)) from
            List.map_append _ _ _]
          rw [hrep]
          have hlen : ((c :: cs).drop pat.length).length ≤ m := by
            have hq : 0 < pat.length := List.length_pos.mpr hc.1
            simp at hs ⊢
            omega
          rw [ih _ hlen]
          rw [show (upperChar c :: pyUpper cs).drop pat.length =
            pyUpper ((c :: cs).drop pat.length) from
              (List.map_drop upperChar (c :: cs) pat.length).symm]
        · have hc' : ¬(pat ≠ [] ∧ isPrefOf pat (upperChar c :: pyUpper cs) = true) := by
            rintro ⟨h1, h2⟩
            rw [show (upperChar c :: pyUpper cs) = pyUpper (c :: cs) from rfl,
              prefOf_upper hp (c :: cs)] at h2
            exact hc ⟨h1, h2⟩
          rw [replaceAll_cons_neg hc, hup, replaceAll_cons_neg hc']
          rw [show pyUpper (c :: replaceAll pat rep cs) =
            upperChar c :: pyUpper (replaceAll pat rep cs) from rfl]
          rw [ih cs (by simp at hs; omega)]
  exact fun s => H s.length s le_rfl

theorem splitNl_ne_nil : ∀ s : Text, splitNl s ≠ [] := by
  intro s
  induction s with
  | nil => simp [splitNl]
  | cons c cs ih =>
    simp only [splitNl]
    by_cases hc : c = '\n'
    · rw [if_pos hc]
      simp
    · rw [if_neg hc]
      cases h : splitNl cs with
      | nil => simp
      | cons l ls => simp

theorem splitNl_no_nl : ∀ s : Text, ∀ l ∈ splitNl s, ('\n') ∉ l := by
  intro s
  induction s with
  | nil =>
    intro l hl
    simp [splitNl] at hl
    simp [hl]
  | cons c cs ih =>
    intro l hl
    simp only [splitNl] at hl
    by_cases hc : c = '\n'
    · rw [if_pos hc] at hl
      rcases List.mem_cons.mp hl with rfl | h
      · simp
      · exact ih l h
    · rw [if_neg hc] at hl
      cases h : splitNl cs with
      | nil => exact absurd h (splitNl_ne_nil cs)
      | cons t ts =>
        rw [h] at hl
        rcases List.mem_cons.mp hl with rfl | h2
        · intro hm
          rcases List.mem_cons.mp hm with he | hm2
          · exact hc he.symm
          · exact ih t (by rw [h]; exact List.mem_cons_self t ts) hm2
        · exact ih l (by rw [h]; exact List.mem_cons_of_mem t h2)

theorem splitNl_of_no_nl : ∀ l : Text, ('\n') ∉ l → splitNl l = [l] := by
  intro l
  induction l with
  | nil => intro _; rfl
  | cons c cs ih =>
    intro h
    have hc : c ≠ '\n' := fun he => h (he ▸ List.mem_cons_self c cs)
    simp only [splitNl]
    rw [if_neg hc, ih (fun hm => h (List.mem_cons_of_mem c hm))]

theorem splitNl_append_nl (l t : Text) (h : ('\n') ∉ l) :
    splitNl (l ++ '\n' :: t) = l :: splitNl t := by
  induction l with
  | nil =>
    simp [splitNl]
  | cons c cs ih =>
    have hc : c ≠ '\n' := fun he => h (he ▸ List.mem_cons_self c cs)
    have hstep : ∀ X : Text, splitNl (c :: X)
        = match splitNl X with | [] => [[c]] | l :: ls => (c :: l) :: ls := by
      intro X
      simp only [splitNl]
      rw [if_neg hc]
    rw [List.cons_append, hstep, ih (fun hm => h (List.mem_cons_of_mem c hm))]

theorem splitNl_joinNl : ∀ L : List Text, L ≠ [] → (∀ l ∈ L, ('\n') ∉ l) →
    splitNl (joinNl L) = L := by
  intro L
  induction L with
  | nil => intro h; exact absurd rfl h
  | cons l ls ih =>
    intro _ hnl
    cases ls with
    | nil =>
      show splitNl (joinNl [l]) = [l]
      exact splitNl_of_no_nl l (hnl l (List.mem_cons_self l []))
    | cons l2 ls2 =>
      show splitNl (l ++ '\n' :: joinNl (l2 :: ls2)) = l :: l2 :: ls2
      rw [splitNl_append_nl l _ (hnl l (List.mem_cons_self _ _))]
      rw [ih (by simp) (fun x hx => hnl x (List.mem_cons_of_mem l hx))]

theorem replaceAll_skip {pat rep : Text} (hpne : pat ≠ []) :
    ∀ (n0 b : Text), (∀ c ∈ n0, c ∉ pat) →
      replaceAll pat rep (n0 ++ b) = n0 ++ replaceAll pat rep b := by
  intro n0
  induction n0 with
  | nil => intro b _; simp
  | cons c n0t ih =>
    intro b hc
    have hne : ¬(pat ≠ [] ∧ isPrefOf pat (c :: (n0t ++ b)) = true) := by
      rintro ⟨_, hpref⟩
      cases hp : pat with
      | nil => exact hpne hp
      | cons p0 pt =>
        rw [hp] at hpref
        simp only [isPrefOf, Bool.and_eq_true, beq_iff_eq] at hpref
        refine hc c (List.mem_cons_self _ _) ?_
        rw [hp, ← hpref.1]
        exact List.mem_cons_self _ _
    rw [List.cons_append, replaceAll_cons_neg hne,
      ih b (fun x hx => hc x (List.mem_cons_of_mem c hx)), List.cons_append]

theorem pref_of_replaceAll {pat rep n : Text} {a0 : Char}
    (h0 : rep.head? = some a0) (ha0 : a0 ∉ n) :
    ∀ (s n2 : Text), n2 ≠ [] → (∀ c ∈ n2, c ∈ n) → n2 <+: replaceAll pat rep s → n2 <+: s := by
  have H : ∀ (m : Nat) (s : Text), s.length ≤ m → ∀ n2, n2 ≠ [] → (∀ c ∈ n2, c ∈ n) →
      n2 <+: replaceAll pat rep s → n2 <+: s := by
    intro m
    induction m with
    | zero =>
      intro s hs n2 hne _ hp
      rw [List.length_eq_zero.mp (Nat.le_zero.mp hs)] at hp ⊢
      rw [replaceAll_nil] at hp
      exact absurd (pref_nil_iff.mp hp) hne
    | succ m ih =>
      intro s hs n2 hne hsub hp
      cases s with
      | nil =>
        rw [replaceAll_nil] at hp
        exact absurd (pref_nil_iff.mp hp) hne
      | cons c cs =>
        by_cases hc : pat ≠ [] ∧ isPrefOf pat (c :: cs) = true
        · rw [replaceAll_cons_pos hc] at hp
          exfalso
          rcases pref_app_cases hp with h2 | ⟨n3, hn3, _⟩
          · cases n2 with
            | nil => exact hne rfl
            | cons x xs =>
              rcases h2 with ⟨r, hr⟩
              have hax : x = a0 := by
                rw [← hr] at h0
                simpa using h0
              exact ha0 (hax ▸ hsub x (List.mem_cons_self _ _))
          · cases hrep : rep with
            | nil =>
              rw [hrep] at h0
              simp at h0
            | cons y ys =>
              have hy : y ∈ n2 := by
                rw [hn3, hrep]
                exact List.mem_append_left _ (List.mem_cons_self _ _)
              have hay : y = a0 := by
                rw [hrep] at h0
                simpa using h0
              exact ha0 (hay ▸ hsub y hy)
        · rw [replaceAll_cons_neg hc] at hp
          cases n2 with
          | nil => exact absurd rfl hne
          | cons x xs =>
            rcases cons_pref_cons.mp hp with ⟨hxc, h2⟩
            subst hxc
            cases xs with
            | nil => exact cons_pref_cons.mpr ⟨rfl, cs, rfl⟩
            | cons z zs =>
              exact cons_pref_cons.mpr ⟨rfl, ih cs (by simp at hs; omega) (z :: zs)
                (by simp) (fun u hu => hsub u (List.mem_cons_of_mem _ hu)) h2⟩
  exact fun s => H s.length s le_rfl

theorem infix_replaceAll_of {pat rep n : Text}
    (hpne : pat ≠ []) (hnne : n ≠ []) (hdisj : ∀ c ∈ n, c ∉ pat) :
    ∀ a b : Text, n <:+: replaceAll pat rep (a ++ (n ++ b)) := by
  have hskip : ∀ b, replaceAll pat rep (n ++ b) = n ++ replaceAll pat rep b :=
    fun b => replaceAll_skip hpne n b hdisj
  have H : ∀ (m : Nat) (a : Text), a.length ≤ m →
      ∀ b, n <:+: replaceAll pat rep (a ++ (n ++ b)) := by
    intro m
    induction m with
    | zero =>
      intro a ha b
      rw [List.length_eq_zero.mp (Nat.le_zero.mp ha), List.nil_append, hskip b]
      exact ⟨[], replaceAll pat rep b, by simp⟩
    | succ m ih =>
      intro a ha b
      cases a with
      | nil =>
        rw [List.nil_append, hskip b]
        exact ⟨[], replaceAll pat rep b, by simp⟩
      | cons c a' =>
        by_cases hc : pat ≠ [] ∧ isPrefOf pat (c :: (a' ++ (n ++ b))) = true
        · rw [List.cons_append, replaceAll_cons_pos hc]
          have hpref : pat <+: (c :: a') ++ (n ++ b) := by
            rw [List.cons_append]
            exact prefOf_iff.mp hc.2
          rcases pref_app_cases hpref with h2 | ⟨p2, hp2, hp2p⟩
          · have hlen : pat.length ≤ (c :: a').length := by
              rcases h2 with ⟨r, hr⟩
              rw [← hr]
              simp
            have hdrop : (c :: (a' ++ (n ++ b))).drop pat.length
                = ((c :: a').drop pat.length) ++ (n ++ b) := by
              rw [← List.cons_append]
              exact List.drop_append_of_le_length hlen
            rw [hdrop]
            refine infix_app_right rep (ih ((c :: a').drop pat.length) ?_ b)
            have hp1 : 0 < pat.length := List.length_pos.mpr hpne
            simp at ha ⊢
            omega
          · cases p2 with
            | nil =>
              rw [List.append_nil] at hp2
              have hdrop : (c :: (a' ++ (n ++ b))).drop pat.length = n ++ b := by
                rw [← List.cons_append, hp2]
                simp
              rw [hdrop, hskip b]
              exact infix_app_right rep ⟨[], replaceAll pat rep b, by simp⟩
            | cons q qs =>
              exfalso
              have hqpat : q ∈ pat := by
                rw [hp2]
                exact List.mem_append_right _ (List.mem_cons_self _ _)
              cases n with
              | nil => exact hnne rfl
              | cons x xs =>
                rcases cons_pref_cons.mp hp2p with ⟨hqx, _⟩
                exact hdisj x (List.mem_cons_self _ _) (hqx ▸ hqpat)
        · rw [List.cons_append, replaceAll_cons_neg hc]
          exact infix_cons_of c (ih a' (by simp at ha; omega) b)
  intro a b
  exact H a.length a le_rfl b

theorem infix_replaceAll_mono {pat rep n : Text}
    (hpne : pat ≠ []) (hnne : n ≠ []) (hdisj : ∀ c ∈ n, c ∉ pat)
    {u : Text} (h : n <:+: u) : n <:+: replaceAll pat rep u := by
  rcases h with ⟨s, t, hst⟩
  rw [← hst]
  have h2 : n <:+: replaceAll pat rep (s ++ (n ++ t)) :=
    infix_replaceAll_of hpne hnne hdisj s t
  rwa [← List.append_assoc] at h2

theorem infix_of_replaceAll {pat rep n : Text} {a0 lc : Char}
    (hnne : n ≠ [])
    (hrepinf : ¬ n <:+: rep)
    (h0 : rep.head? = some a0) (ha0 : a0 ∉ n)
    (hl : rep.getLast? = some lc) (hlc : lc ∉ n) :
    ∀ u : Text, n <:+: replaceAll pat rep u → n <:+: u := by
  have H : ∀ (m : Nat) (u : Text), u.length ≤ m →
      n <:+: replaceAll pat rep u → n <:+: u := by
    intro m
    induction m with
    | zero =>
      intro u hu h
      rw [List.length_eq_zero.mp (Nat.le_zero.mp hu)] at h ⊢
      rw [replaceAll_nil] at h
      exact h
    | succ m ih =>
      intro u hu h
      cases u with
      | nil =>
        rw [replaceAll_nil] at h
        exact h
      | cons c cs =>
        by_cases hc : pat ≠ [] ∧ isPrefOf pat (c :: cs) = true
        · rw [replaceAll_cons_pos hc] at h
          rcases infix_app_cases h with h2 | h2 | ⟨n1, n2, hn12, hn1, hn2, hsuf, hpref⟩
          · exact absurd h2 hrepinf
          · have hdl : ((c :: cs).drop pat.length).length ≤ m := by
              have hp1 : 0 < pat.length := List.length_pos.mpr hc.1
              simp at hu ⊢
              omega
            rcases ih _ hdl h2 with ⟨s, t, hst⟩
            refine ⟨(c :: cs).take pat.length ++ s, t, ?_⟩
            have hst' : s ++ (n ++ t) = (c :: cs).drop pat.length := by
              rw [← List.append_assoc]
              exact hst
            rw [List.append_assoc, List.append_assoc, hst', List.take_append_drop]
          · exfalso
            rcases List.eq_nil_or_concat n1 with rfl | ⟨n1h, z, rfl⟩
            · exact hn1 rfl
            · rcases hsuf with ⟨s, hs⟩
              rw [List.concat_eq_append] at hn12 hs
              have hz : rep.getLast? = some z := by
                rw [← hs, ← List.append_assoc]
                exact List.getLast?_concat _
              rw [hl] at hz
              injection hz with hz1
              have hzn : z ∈ n := by
                rw [hn12]
                exact List.mem_append_left n2
                  (List.mem_append_right n1h (List.mem_cons_self z []))
              exact hlc (by rw [hz1]; exact hzn)
        · rw [replaceAll_cons_neg hc] at h
          rcases infix_cons_split.mp h with h2 | h2
          · cases n with
            | nil => exact absurd rfl hnne
            | cons x xs =>
              rcases cons_pref_cons.mp h2 with ⟨hxc, h3⟩
              cases xs with
              | nil => exact infix_of_pref (cons_pref_cons.mpr ⟨hxc, cs, rfl⟩)
              | cons z zs =>
                have h4 := pref_of_replaceAll h0 ha0 cs (z :: zs) (by simp)
                  (fun u hu => List.mem_cons_of_mem x hu) h3
                exact infix_of_pref (cons_pref_cons.mpr ⟨hxc, h4⟩)
          · exact infix_cons_of c (ih cs (by simp at hu; omega) h2)
  exact fun u => H u.length u le_rfl

theorem isSub_replaceAll (pat rep n : Text) (a0 lc : Char)
    (hpne : pat ≠ []) (hnne : n ≠ []) (hdisj : ∀ c ∈ n, c ∉ pat)
    (hrepinf : isSub n rep = false) (h0 : rep.head? = some a0) (ha0 : a0 ∉ n)
    (hl : rep.getLast? = some lc) (hlc : lc ∉ n) (u : Text) :
    isSub n (replaceAll pat rep u) = isSub n u := by
  have hri : ¬ n <:+: rep := by
    intro h
    rw [subOf_iff.mpr h] at hrepinf
    exact absurd hrepinf (by simp)
  by_cases h : n <:+: u
  · rw [subOf_iff.mpr h, subOf_iff.mpr (infix_replaceAll_mono hpne hnne hdisj h)]
  · have h1 : isSub n u = false := by
      cases hb : isSub n u with
      | false => rfl
      | true => exact absurd (subOf_iff.mp hb) h
    have h2 : isSub n (replaceAll pat rep u) = false := by
      cases hb : isSub n (replaceAll pat rep u) with
      | false => rfl
      | true =>
        exact absurd (infix_of_replaceAll hnne hri h0 ha0 hl hlc u (subOf_iff.mp hb)) h
    rw [h1, h2]

theorem applyFix_eq {l : Text} (hnl : ('\n') ∉ l) :
    applyFix l = replaceAll stdColComma anyValueRep l := by
  unfold applyFix
  refine replaceAll_id_of_not_mem (show ('\n') ∈ stdColNl by decide) _ ?_
  intro hm
  rcases mem_replaceAll l hm with h | h
  · exact hnl h
  · exact absurd h (by decide)

theorem applyFix_no_nl {l : Text} (hnl : ('\n') ∉ l) : ('\n') ∉ applyFix l := by
  rw [applyFix_eq hnl]
  intro hm
  rcases mem_replaceAll l hm with h | h
  · exact hnl h
  · exact absurd h (by decide)

theorem stdColComma_upper_fix : ∀ p ∈ stdColComma, upperChar p = p ∧ p ∉ ucLetters := by
  decide

theorem pyUpper_anyValueRep : pyUpper anyValueRep = anyValueRep := by
  decide

theorem hasGB_replaceAll (l : Text) :
    hasGB (replaceAll stdColComma anyValueRep l) = hasGB l := by
  unfold hasGB
  rw [pyUpper_replaceAll stdColComma_upper_fix pyUpper_anyValueRep l]
  exact isSub_replaceAll stdColComma anyValueRep gbStr 'A' ','
    (by decide) (by decide) (by decide) (by decide) (by decide) (by decide)
    (by decide) (by decide) (pyUpper l)

theorem hasSEL_replaceAll (l : Text) :
    hasSEL (replaceAll stdColComma anyValueRep l) = hasSEL l := by
  unfold hasSEL
  rw [pyUpper_replaceAll stdColComma_upper_fix pyUpper_anyValueRep l]
  exact isSub_replaceAll stdColComma anyValueRep selStr 'A' ','
    (by decide) (by decide) (by decide) (by decide) (by decide) (by decide)
    (by decide) (by decide) (pyUpper l)

theorem hasAV_applyFix {l : Text} (hnl : ('\n') ∉ l) :
    applyFix l = l ∨ hasAV (applyFix l) = true := by
  rw [applyFix_eq hnl]
  rcases replaceAll_eq_or_has_rep stdColComma anyValueRep l with h | h
  · exact Or.inl h
  · refine Or.inr (subOf_iff.mpr ((subOf_iff.mp (by decide : isSub avStr anyValueRep = true)).trans h))

theorem fixStep_cases (f : Bool) (W : List Text) (l : Text) :
    fixStep f W l = l ∨ fixStep f W l = applyFix l := by
  unfold fixStep
  by_cases h : (f && lineTarget l) = true
  · rw [if_pos h]
    cases hf : W.find? hasGB with
    | none => exact Or.inl rfl
    | some gb =>
      by_cases h2 : (!gb.isEmpty && !(isSub stdCol gb)) = true
      · refine Or.inr ?_
        show (if (!gb.isEmpty && !(isSub stdCol gb)) = true then applyFix l else l) = applyFix l
        rw [if_pos h2]
      · refine Or.inl ?_
        show (if (!gb.isEmpty && !(isSub stdCol gb)) = true then applyFix l else l) = l
        rw [if_neg h2]
  · rw [if_neg h]
    exact Or.inl rfl

theorem fixStep_rel (f : Bool) (l : Text) (w : List Text) (hnl : ('\n') ∉ l) :
    RepairRel l (fixStep f (l :: w) l) := by
  unfold fixStep
  by_cases h : (f && lineTarget l) = true
  · rw [if_pos h]
    have htgt : lineTarget l = true := by
      simp only [Bool.and_eq_true] at h
      exact h.2
    have hstd : isSub stdCol l = true := by
      unfold lineTarget at htgt
      simp only [Bool.and_eq_true] at htgt
      exact htgt.1.1
    by_cases hgb : hasGB l = true
    · rw [List.find?_cons_of_pos _ hgb]
      refine Or.inl ?_
      show (if (!l.isEmpty && !(isSub stdCol l)) = true then applyFix l else l) = l
      rw [if_neg (by simp [hstd])]
    · have hgbf : hasGB l = false := by
        cases hb : hasGB l with
        | false => rfl
        | true => exact absurd hb hgb
      rw [List.find?_cons_of_neg _ hgb]
      cases hf : w.find? hasGB with
      | none => exact Or.inl rfl
      | some gb =>
        by_cases h2 : (!gb.isEmpty && !(isSub stdCol gb)) = true
        · have hred : (match some gb with
              | some gb => if (!gb.isEmpty && !(isSub stdCol gb)) = true then applyFix l else l
              | none => l) = applyFix l := by
            show (if (!gb.isEmpty && !(isSub stdCol gb)) = true then applyFix l else l) = applyFix l
            rw [if_pos h2]
          rw [hred]
          rcases hasAV_applyFix hnl with he | hav
          · exact Or.inl he
          · refine Or.inr ⟨hav, hgbf, ?_, ?_⟩
            · rw [applyFix_eq hnl, hasGB_replaceAll, hgbf]
            · rw [applyFix_eq hnl, hasSEL_replaceAll]
        · refine Or.inl ?_
          show (if (!gb.isEmpty && !(isSub stdCol gb)) = true then applyFix l else l) = l
          rw [if_neg h2]
  · rw [if_neg h]
    exact Or.inl rfl

theorem find?_hasGB_congr : ∀ {W W' : List Text}, List.Forall₂ RepairRel W W' →
    W'.find? hasGB = W.find? hasGB := by
  intro W W' h
  induction h with
  | nil => rfl
  | cons hrel htail ih =>
    rename_i a b l l'
    have hgb : hasGB b = hasGB a := by
      rcases hrel with rfl | ⟨_, h1, h2, _⟩
      · rfl
      · rw [h1, h2]
    by_cases ha : hasGB a = true
    · have hb : hasGB b = true := by rw [hgb, ha]
      have hab : b = a := by
        rcases hrel with rfl | ⟨_, h1, _, _⟩
        · rfl
        · rw [h1] at ha
          exact absurd ha (by simp)
      rw [List.find?_cons_of_pos _ ha, List.find?_cons_of_pos _ hb, hab]
    · have hbn : ¬ hasGB b = true := by rw [hgb]; exact ha
      rw [List.find?_cons_of_neg _ ha, List.find?_cons_of_neg _ hbn]
      exact ih

theorem forall2_take {R : Text → Text → Prop} (k : Nat) :
    ∀ {l l' : List Text}, List.Forall₂ R l l' → List.Forall₂ R (l.take k) (l'.take k) :=
  fun h => List.forall₂_take k h

theorem fixLines_cons (n i : Nat) (f : Bool) (line : Text) (tail : List Text) :
    fixLines n i f (line :: tail)
      = fixStep (f || (hasSEL line && decide (i > n / 2))) (line :: tail.take 9) line
        :: fixLines n (i + 1) (f || (hasSEL line && decide (i > n / 2))) tail := by
  simp only [fixLines, List.take_succ_cons]

theorem fixLines_length (n : Nat) : ∀ (i : Nat) (f : Bool) (rest : List Text),
    (fixLines n i f rest).length = rest.length := by
  intro i f rest
  induction rest generalizing i f with
  | nil => rfl
  | cons l t ih => simp only [fixLines, List.length_cons, ih]

theorem fixLines_no_nl (n : Nat) : ∀ (i : Nat) (f : Bool) (rest : List Text),
    (∀ l ∈ rest, ('\n') ∉ l) → ∀ l ∈ fixLines n i f rest, ('\n') ∉ l := by
  intro i f rest
  induction rest generalizing i f with
  | nil =>
    intro _ l hl
    simp [fixLines] at hl
  | cons a t ih =>
    intro hall l hl
    rw [fixLines_cons] at hl
    rcases List.mem_cons.mp hl with rfl | h
    · rcases fixStep_cases (f || (hasSEL a && decide (i > n / 2))) (a :: t.take 9) a with he | he
      · rw [he]
        exact hall a (List.mem_cons_self _ _)
      · rw [he]
        exact applyFix_no_nl (hall a (List.mem_cons_self _ _))
    · exact ih (i + 1) _ (fun x hx => hall x (List.mem_cons_of_mem a hx)) l h

theorem fixStep_stable {f2 : Bool} {line lr : Text} {W W' : List Text}
    (hrel : RepairRel line lr)
    (hfind : (lr :: W').find? hasGB = (line :: W).find? hasGB)
    (hpass1 : fixStep f2 (line :: W) line = lr) :
    fixStep f2 (lr :: W') lr = lr := by
  by_cases hB : (f2 && lineTarget lr) = true
  · have htgt : lineTarget lr = true := by
      simp only [Bool.and_eq_true] at hB
      exact hB.2
    have hlr : lr = line := by
      rcases hrel with h | ⟨hav, _, _, _⟩
      · exact h
      · exfalso
        unfold lineTarget at htgt
        rw [hav] at htgt
        simp at htgt
    subst hlr
    unfold fixStep at hpass1 ⊢
    rw [if_pos hB] at hpass1 ⊢
    rw [hfind]
    exact hpass1
  · unfold fixStep
    rw [if_neg hB]

theorem fixLines_idem (n : Nat) : ∀ (rest : List Text) (i : Nat) (f : Bool),
    (∀ l ∈ rest, ('\n') ∉ l) →
    List.Forall₂ RepairRel rest (fixLines n i f rest) ∧
      fixLines n i f (fixLines n i f rest) = fixLines n i f rest := by
  intro rest
  induction rest with
  | nil =>
    intro i f _
    exact ⟨List.Forall₂.nil, rfl⟩
  | cons line tail ih =>
    intro i f hall
    have hnl : ('\n') ∉ line := hall line (List.mem_cons_self _ _)
    have halltail : ∀ l ∈ tail, ('\n') ∉ l := fun l hl => hall l (List.mem_cons_of_mem _ hl)
    rcases ih (i + 1) (f || (hasSEL line && decide (i > n / 2))) halltail with ⟨hrelT, hidemT⟩
    have hrelL := fixStep_rel (f || (hasSEL line && decide (i > n / 2))) line (tail.take 9) hnl
    rw [fixLines_cons]
    refine ⟨List.Forall₂.cons hrelL hrelT, ?_⟩
    rw [fixLines_cons]
    have hsel : hasSEL (fixStep (f || (hasSEL line && decide (i > n / 2)))
        (line :: tail.take 9) line) = hasSEL line := by
      rcases hrelL with h | ⟨_, _, _, h⟩
      · rw [h]
      · exact h
    rw [hsel, hidemT]
    congr 1
    exact fixStep_stable hrelL
      (find?_hasGB_congr (List.Forall₂.cons hrelL (forall2_take 9 hrelT)))
      rfl

theorem fix_group_by_issue_idem (q : Text) :
    fix_group_by_issue (fix_group_by_issue q) = fix_group_by_issue q := by
  unfold fix_group_by_issue
  have hnl := splitNl_no_nl q
  have hidem := fixLines_idem (splitNl q).length (splitNl q) 0 false hnl
  have hlines_nl : ∀ l ∈ fixLines (splitNl q).length 0 false (splitNl q), ('\n') ∉ l :=
    fixLines_no_nl _ 0 false (splitNl q) hnl
  have hne : fixLines (splitNl q).length 0 false (splitNl q) ≠ [] := by
    intro h
    have hlen := fixLines_length (splitNl q).length 0 false (splitNl q)
    rw [h] at hlen
    exact splitNl_ne_nil q (List.length_eq_zero.mp hlen.symm)
  rw [splitNl_joinNl _ hne hlines_nl]
  rw [fixLines_length]
  rw [hidem.2]

theorem findGBE_eq (allLines : List Text) :
    ∀ (k i : Nat), i + k ≤ allLines.length →
      findGBE allLines (List.range' i k)
        = Except.ok (((allLines.drop i).take k).find? hasGB) := by
  intro k
  induction k with
  | zero =>
    intro i _
    rfl
  | succ k ih =>
    intro i hik
    have hi : i < allLines.length := by omega
    have hdrop : allLines.drop i = allLines[i] :: allLines.drop (i + 1) :=
      List.drop_eq_getElem_cons hi
    rw [List.range'_succ]
    have hget : allLines.get? i = some (allLines[i]) := by
      rw [List.get?_eq_getElem?]
      exact List.getElem?_eq_getElem hi
    show (match allLines.get? i with
      | none => Except.error PyErr.indexError
      | some l => if hasGB l then Except.ok (some l)
        else findGBE allLines (List.range' (i + 1) k)) = _
    rw [hget]
    show (if hasGB (allLines[i]) then Except.ok (some (allLines[i]))
      else findGBE allLines (List.range' (i + 1) k)) = _
    by_cases hgb : hasGB (allLines[i]) = true
    · rw [if_pos hgb, hdrop, List.take_succ_cons, List.find?_cons_of_pos _ hgb]
    · rw [if_neg hgb, hdrop, List.take_succ_cons, List.find?_cons_of_neg _ hgb]
      exact ih (i + 1) (by omega)

theorem fixStepE_eq (allLines : List Text) (i : Nat) (f : Bool) (line : Text) (tail : List Text)
    (hdrop : allLines.drop i = line :: tail) :
    fixStepE allLines i f line = Except.ok (fixStep f ((line :: tail).take 10) line) := by
  have hi : i < allLines.length := by
    by_contra hle
    have hd := List.drop_eq_nil_of_le (Nat.le_of_not_lt hle)
    rw [hdrop] at hd
    simp at hd
  unfold fixStepE fixStep
  by_cases hB : (f && lineTarget line) = true
  · rw [if_pos hB, if_pos hB]
    have hk : i + (min (i + 10) allLines.length - i) ≤ allLines.length := by omega
    rw [findGBE_eq allLines _ i hk]
    have htake : (allLines.drop i).take (min (i + 10) allLines.length - i)
        = (allLines.drop i).take 10 := by
      apply List.take_eq_take.mpr
      rw [List.length_drop]
      omega
    rw [hdrop] at htake
    rw [hdrop, htake]
    cases hf : ((line :: tail).take 10).find? hasGB with
    | none => rfl
    | some gb => rfl
  · rw [if_neg hB, if_neg hB]

theorem fixLinesE_eq (allLines : List Text) :
    ∀ (rest : List Text) (i : Nat) (f : Bool), allLines.drop i = rest →
      fixLinesE allLines i f rest = Except.ok (fixLines allLines.length i f rest) := by
  intro rest
  induction rest with
  | nil =>
    intro i f _
    rfl
  | cons line tail ih =>
    intro i f hdrop
    have hdrop2 : allLines.drop (i + 1) = tail := by
      rw [← List.tail_drop, hdrop, List.tail_cons]
    show (do
      let lr ← fixStepE allLines i (f || (hasSEL line && decide (i > allLines.length / 2))) line
      let rest2 ← fixLinesE allLines (i + 1)
        (f || (hasSEL line && decide (i > allLines.length / 2))) tail
      pure (lr :: rest2)) = _
    rw [fixStepE_eq allLines i _ line tail hdrop,
      ih (i + 1) (f || (hasSEL line && decide (i > allLines.length / 2))) hdrop2]
    show Except.ok _ = _
    rfl

theorem fix_group_by_issueE_ok (q : Text) :
    fix_group_by_issueE q = Except.ok (fix_group_by_issue q) := by
  unfold fix_group_by_issueE fix_group_by_issue
  rw [fixLinesE_eq (splitNl q) (splitNl q) 0 false (List.drop_zero _)]
  rfl

theorem repair_sql_eq (q : Text) : repair_sql q = fix_group_by_issue q := by
  unfold repair_sql
  rw [fix_group_by_issueE_ok]

/-- C8: `SqlRepairer.repair` (`DataAgent._fix_group_by_issue` wrapped in its
`try`/bare-`except` fail-open handler, agent_service.py lines 549-582) is
idempotent: for every query string `q`, `repair (repair q) = repair q`.
A line changed by the first pass gains an `ANY_VALUE` marker that makes it
fail the target test on the second pass, and no replacement ever creates or
destroys a `SELECT` or `GROUP BY` occurrence, so the second pass recomputes
the same flags and windows and changes nothing. -/
theorem repair_sql_idem (q : Text) : repair_sql (repair_sql q) = repair_sql q := by
  rw [repair_sql_eq, repair_sql_eq, fix_group_by_issue_idem]

/-- C9: `SqlRepairer.repair` never raises for any input query string. In
the embedding every internal partial operation of the `try` block (the
indexed `lines[j]` lookups of the GROUP BY window scan) is surfaced as an
`Except` error by `fix_group_by_issueE`; that computation succeeds on every
input and `repair_sql` returns its value, so the bare-`except` fallback
returning the original query is never exercised. -/
theorem fix_group_by_issue_never_raises (q : Text) :
    fix_group_by_issueE q = Except.ok (repair_sql q) := by
  rw [repair_sql_eq]
  exact fix_group_by_issueE_ok q
